import Mathlib

/-! Verification development for `ges` (rentiansheng/decode).

A shallow embedding of `agg.go` and `es.go`: the aggregation nodes and their
JSON serialization, the copy-on-write query builder, and the bulk writer `Save`.

Conventions of the embedding

* A Go value that is only ever handed to `encoding/json` is represented by the
  JSON document it encodes to (`Json`), or by `Json.unsupported` when
  `encoding/json` refuses to write it.
* A Go `map[string]T` is an association list kept in ascending key order, the
  order in which `encoding/json` writes the keys of a map (`GoMap`).
* A nilable pointer or interface is an `Option`; calling a method on a nil
  interface is the run-time panic `Fault.panic`.
* A call that returns `(value, error)` returns `Except Fault value`.
-/

namespace Ges

/-! ## JSON documents and Go maps -/

/-- JSON documents. An object keeps its members in the order they are written.
`unsupported` stands for a Go value that `encoding/json` refuses to write (a
channel, a function, a NaN). -/
inductive Json where
  | null : Json
  | bool (b : Bool) : Json
  | num (n : Int) : Json
  | str (s : String) : Json
  | arr (items : List Json) : Json
  | obj (members : List (String × Json)) : Json
  | unsupported (why : String) : Json

mutual
/-- Whether `encoding/json` writes the value: it holds no unsupported value. -/
def Json.encodable : Json → Bool
  | .unsupported _ => false
  | .arr items => encodableItems items
  | .obj members => encodableMembers members
  | _ => true
/-- Whether `encoding/json` writes every value of a slice. -/
def encodableItems : List Json → Bool
  | [] => true
  | item :: rest => item.encodable && encodableItems rest
/-- Whether `encoding/json` writes every value of a map or struct. -/
def encodableMembers : List (String × Json) → Bool
  | [] => true
  | (_, value) :: rest => value.encodable && encodableMembers rest
end

/-- How a call can fail: with a returned `error` value, or with a run-time panic. -/
inductive Fault where
  | error (msg : String) : Fault
  | panic (msg : String) : Fault
  deriving DecidableEq

/-- The panic raised by a method call on a nil interface value. -/
def nilDereference : Fault :=
  Fault.panic "runtime error: invalid memory address or nil pointer dereference"

/-- The error that `json.Marshal` returns for a value it cannot write. -/
def jsonUnsupported : Fault := Fault.error "json: unsupported value"

/-- What `encoding/json` makes of the failure of a `MarshalJSON` that it called:
an error is returned inside a `MarshalerError`, a panic is not caught. -/
def marshalerError : Fault → Fault
  | .error msg => .error ("json: error calling MarshalJSON for type ges.agg: " ++ msg)
  | .panic msg => .panic msg

/-- A Go `map[string]V`, as the list of its entries in ascending key order. -/
abbrev GoMap (V : Type) := List (String × V)

/-- The assignment `m[k] = v`: overwrites the entry of `k` when there is one.
Keys are compared character by character, as `sort.Strings` does. -/
def GoMap.set {V : Type} (k : String) (v : V) : GoMap V → GoMap V
  | [] => [(k, v)]
  | (k', v') :: rest =>
    if k.data < k'.data then (k, v) :: (k', v') :: rest
    else if k = k' then (k, v) :: rest
    else (k', v') :: GoMap.set k v rest

/-- The lookup `m[k]`. -/
def GoMap.get {V : Type} (m : GoMap V) (k : String) : Option V :=
  (m.find? (fun kv => kv.1 = k)).map Prod.snd

/-- The assignments `m[k] = v` for the pairs of `kvs`, in order. -/
def GoMap.setAll {V : Type} (kvs : List (String × V)) (init : GoMap V) : GoMap V :=
  kvs.foldl (fun m kv => GoMap.set kv.1 kv.2 m) init

/-- The keys of a map, in the order they are serialized. -/
def GoMap.keys {V : Type} (m : GoMap V) : List String := m.map Prod.fst

/-! ## agg.go: aggregation nodes -/

/-- The struct `aggDateHistogram`; every field is tagged `omitempty`. -/
structure aggDateHistogram where
  Field : String
  CalendarInterval : String
  Format : String
  Offset : String
  TimeZone : String
  deriving DecidableEq

/-- The struct `aggDistinct`; `Size` is an `int64`. -/
structure aggDistinct where
  Field : String
  Size : Int
  deriving DecidableEq

/-- The struct `aggFilter` as `Result` and `MarshalJSON` read it: its name and
the content that its map `terms` has at that moment (nil, or the entries). -/
structure aggFilter where
  name : String
  terms : Option (GoMap Json)

mutual
/-- The struct `agg`. `filters` is a nilable pointer, `raw` an `interface{}`. -/
inductive agg where
  | mk (name : String) (filters : Option aggFilters)
      (dataHistogram : Option aggDateHistogram) (distinct : Option aggDistinct)
      (raw : Option Json) : agg
/-- The struct `aggFilters`; `buckets` holds `AggFilter` interface values and
`agg` is an `Agg` interface value, each of which may be nil. -/
inductive aggFilters where
  | mk (buckets : List (Option aggFilter)) (agg : Option agg) : aggFilters
end

def agg.name : agg → String
  | .mk n _ _ _ _ => n

def agg.filters : agg → Option aggFilters
  | .mk _ f _ _ _ => f

def agg.dataHistogram : agg → Option aggDateHistogram
  | .mk _ _ h _ _ => h

def agg.distinct : agg → Option aggDistinct
  | .mk _ _ _ d _ => d

def agg.raw : agg → Option Json
  | .mk _ _ _ _ r => r

def aggFilters.buckets : aggFilters → List (Option aggFilter)
  | .mk b _ => b

def aggFilters.agg : aggFilters → Option agg
  | .mk _ a => a

/-- The zero value `agg{}`. -/
def agg.zero : agg := .mk "" none none none none

/-- Source: `func (a agg) Name(name string) Agg`. -/
def agg.Name (a : agg) (name : String) : agg :=
  .mk name a.filters a.dataHistogram a.distinct a.raw

/-- Source: `func (a agg) Filter(agg Agg, filter ...AggFilter) Agg`. -/
def agg.Filter (a : agg) (sub : Option agg) (filter : List (Option aggFilter)) : agg :=
  .mk a.name (some (.mk filter sub)) a.dataHistogram a.distinct a.raw

/-- Source: `func (a agg) DateHistogram(field, interval, format, offset, timeZone string) Agg`. -/
def agg.DateHistogram (a : agg) (field interval format offset timeZone : String) : agg :=
  .mk a.name a.filters (some ⟨field, interval, format, offset, timeZone⟩) a.distinct a.raw

/-- Source: `func (a agg) Distinct(field string, number int64) Agg`. -/
def agg.Distinct (a : agg) (field : String) (number : Int) : agg :=
  .mk a.name a.filters a.dataHistogram (some ⟨field, number⟩) a.raw

/-- Source: `func (a agg) Raw(raw interface{}) Agg`. -/
def agg.Raw (a : agg) (raw : Json) : agg :=
  .mk a.name a.filters a.dataHistogram a.distinct (some raw)

/-- Source: `func (a agg) Result() (string, interface{})`. -/
def agg.Result (a : agg) : String × agg := (a.name, a)

/-- An `aggFilter` value as a program holds it. A Go map is a reference: `terms`
is nil or the address of the map, and every copy of the value shares that map. -/
structure aggFilterRef where
  name : String
  terms : Option Nat

/-- The maps allocated by `make(map[string]interface{}, 0)`, by address. -/
abbrev TermsHeap := List (GoMap Json)

/-- What `Result` and `MarshalJSON` read of a filter value: its name and the
present content of its map. -/
def aggFilterRef.read (a : aggFilterRef) (heap : TermsHeap) : aggFilter :=
  match a.terms with
  | none => ⟨a.name, none⟩
  | some addr => ⟨a.name, heap[addr]?⟩

/-- Source: `func AggFilterName(name string) AggFilter`. -/
def AggFilterName (name : String) : aggFilterRef := ⟨name, none⟩

/-- Source: `func (a aggFilter) Name(name string) AggFilter`. -/
def aggFilterRef.Name (a : aggFilterRef) (name : String) : aggFilterRef :=
  { a with name := name }

/-- The encoding of a variadic `...interface{}` argument: nil for a call without
values, which is written `null`; else the slice of the values, which is written
as an array (an empty one when an empty slice is spread into the call). -/
def variadicJson : Option (List Json) → Json
  | none => Json.null
  | some values => Json.arr values

/-- Source: `func (a aggFilter) TermsArray(field string, arr interface{}) AggFilter`.
The receiver is a copy of the struct: with a nil `terms` the new map belongs to
the returned value only; otherwise the assignment is to the map that the
receiver shares with every other copy. -/
def aggFilterRef.TermsArray (a : aggFilterRef) (field : String) (arr : Json)
    (heap : TermsHeap) : aggFilterRef × TermsHeap :=
  match a.terms with
  | none => ({ a with terms := some heap.length }, heap ++ [GoMap.set field arr []])
  | some addr => (a, heap.set addr (GoMap.set field arr ((heap[addr]?).getD [])))

/-- Source: `func (a aggFilter) Terms(field string, val ...interface{}) AggFilter`. -/
def aggFilterRef.Terms (a : aggFilterRef) (field : String) (val : Option (List Json))
    (heap : TermsHeap) : aggFilterRef × TermsHeap :=
  match a.terms with
  | none =>
    ({ a with terms := some heap.length }, heap ++ [GoMap.set field (variadicJson val) []])
  | some addr =>
    (a, heap.set addr (GoMap.set field (variadicJson val) ((heap[addr]?).getD [])))

/-- Source: `func (a aggFilter) Result() (string, map[string]interface{})`. -/
def aggFilter.Result (a : aggFilter) : String × GoMap Json :=
  match a.terms with
  | none => (a.name, [])
  | some t => (a.name, GoMap.set "terms" (Json.obj t) [])

/-- The encoding of an `aggDateHistogram`: the fields in declaration order,
an empty string being omitted (`omitempty`). -/
def aggDateHistogram.toJson (h : aggDateHistogram) : Json :=
  Json.obj (
    [("field", h.Field), ("calendar_interval", h.CalendarInterval), ("format", h.Format),
     ("offset", h.Offset), ("time_zone", h.TimeZone)].filterMap
      (fun kv => if kv.2 = "" then none else some (kv.1, Json.str kv.2)))

/-- The encoding of an `aggDistinct`: both fields, always. -/
def aggDistinct.toJson (d : aggDistinct) : Json :=
  Json.obj [("field", Json.str d.Field), ("size", Json.num d.Size)]

/-- The loop `for _, item := range a.filters.buckets` of `agg.MarshalJSON`,
started from the map `filters` built so far. -/
def marshalBuckets : List (Option aggFilter) → GoMap Json → Except Fault (GoMap Json)
  | [], filters => .ok filters
  | none :: _, _ => .error nilDereference
  | some item :: rest, filters =>
    let (name, cond) := item.Result
    marshalBuckets rest (GoMap.set name (Json.obj cond) filters)

mutual
/-- Source: `func (a agg) MarshalJSON() ([]byte, error)`. -/
def agg.MarshalJSON : agg → Except Fault Json
  | .mk _ none (some h) _ _ => .ok (Json.obj (GoMap.set "date_histogram" h.toJson []))
  | .mk _ none none (some d) _ => .ok (Json.obj (GoMap.set "terms" d.toJson []))
  | .mk _ none none none _ => .ok (Json.obj [])
  | .mk _ (some fs) _ _ _ => aggFilters.marshal fs
/-- The branch of `agg.MarshalJSON` taken when `a.filters != nil`. The last step
is `json.Marshal(result)`, which writes `aggs` before `filters`: it calls the
`MarshalJSON` of the sub-aggregation, and it fails on a term value that cannot
be written. -/
def aggFilters.marshal : aggFilters → Except Fault Json
  | .mk buckets sub =>
    match marshalBuckets buckets [] with
    | .error e => .error e
    | .ok filters =>
      let result := GoMap.set "filters" (Json.obj (GoMap.set "filters" (Json.obj filters) [])) []
      match sub with
      | none => .error nilDereference
      | some subAgg =>
        match agg.MarshalJSON subAgg with
        | .error e => .error (marshalerError e)
        | .ok encoded =>
          if (Json.obj filters).encodable then
            .ok (Json.obj (GoMap.set "aggs" (Json.obj (GoMap.set subAgg.name encoded [])) result))
          else .error jsonUnsupported
end

mutual
/-- Every `Filter` call in the node, at any depth, received a non-nil
sub-aggregation and non-nil filters whose term values can be written. -/
def agg.wellFormed : agg → Bool
  | .mk _ none _ _ _ => true
  | .mk _ (some fs) _ _ _ => aggFilters.wellFormed fs
/-- The filters are non-nil with term values that can be written, and the
sub-aggregation is non-nil and well formed. -/
def aggFilters.wellFormed : aggFilters → Bool
  | .mk _ none => false
  | .mk buckets (some sub) =>
    buckets.all (fun bucket =>
      match bucket with
      | none => false
      | some item => (Json.obj item.Result.2).encodable) && agg.wellFormed sub
end

/-- The map that the bucket loop of `agg.MarshalJSON` builds from non-nil
filters, started from `init`. -/
def bucketsMap (buckets : List aggFilter) (init : GoMap Json) : GoMap Json :=
  buckets.foldl (fun m item => GoMap.set item.Result.1 (Json.obj item.Result.2) m) init

/-- A call of `Terms` or of `TermsArray`, without its receiver. -/
inductive TermsCall where
  | terms (field : String) (val : Option (List Json)) : TermsCall
  | termsArray (field : String) (arr : Json) : TermsCall

/-- The field a call sets. -/
def TermsCall.field : TermsCall → String
  | .terms f _ => f
  | .termsArray f _ => f

/-- The value a call stores for its field. -/
def TermsCall.value : TermsCall → Json
  | .terms _ val => variadicJson val
  | .termsArray _ arr => arr

/-- The method call on a filter value. -/
def TermsCall.apply (call : TermsCall) (a : aggFilterRef) (heap : TermsHeap) :
    aggFilterRef × TermsHeap :=
  match call with
  | .terms f val => a.Terms f val heap
  | .termsArray f arr => a.TermsArray f arr heap

/-- A chain `a.Terms(...).TermsArray(...)...`: each call is made on the value
that the call before it returned. -/
def termsChain : List TermsCall → aggFilterRef → TermsHeap → aggFilterRef × TermsHeap
  | [], a, heap => (a, heap)
  | call :: rest, a, heap =>
    termsChain rest (call.apply a heap).1 (call.apply a heap).2

/-- A step of a program that builds filters: a call of `AggFilterName`, or a
`Terms` / `TermsArray` call or a `Name` call on the filter value with the index
`target` among those that exist. -/
inductive FilterCall where
  | create (name : String) : FilterCall
  | terms (target : Nat) (call : TermsCall) : FilterCall
  | name (target : Nat) (name : String) : FilterCall

/-- The state of a program that builds filters: the filter values that exist,
the maps, and the record of the assignments `a.terms[field] = val` made so far
(the address of the map, the field and the value), in order. -/
structure FilterState where
  values : List aggFilterRef
  heap : TermsHeap
  assigned : List (Nat × String × Json)

/-- A step: the value that the call returns is added to the values that exist,
and a `Terms` / `TermsArray` call is recorded as an assignment to the map of the
value it returns; a call on a value that does not exist is skipped. -/
def FilterState.step (s : FilterState) : FilterCall → FilterState
  | .create name => { s with values := s.values ++ [AggFilterName name] }
  | .terms target call =>
    match s.values[target]? with
    | none => s
    | some a =>
      { values := s.values ++ [(call.apply a s.heap).1]
        heap := (call.apply a s.heap).2
        assigned :=
          match (call.apply a s.heap).1.terms with
          | none => s.assigned
          | some addr => s.assigned ++ [(addr, call.field, call.value)] }
  | .name target name =>
    match s.values[target]? with
    | none => s
    | some a => { s with values := s.values ++ [a.Name name] }

/-- The program that makes the calls, in order, from no filter value at all. -/
def runFilterCalls (calls : List FilterCall) : FilterState :=
  calls.foldl FilterState.step ⟨[], [], []⟩

/-- The assignments made to the map at `addr`, in order. -/
def FilterState.assignedTo (s : FilterState) (addr : Nat) : List (String × Json) :=
  (s.assigned.filter (fun w => w.1 = addr)).map (fun w => w.2)

/-- The maps of a state hold what the record of the assignments says: every
address in use is allocated, and an allocated map has received at least one
assignment and holds the outcome of the assignments made to it. -/
def FilterState.consistent (s : FilterState) : Prop :=
  (∀ g ∈ s.values, ∀ addr, g.terms = some addr → addr < s.heap.length)
    ∧ (∀ w ∈ s.assigned, w.1 < s.heap.length)
    ∧ (∀ addr, addr < s.heap.length →
        s.heap[addr]? = some (GoMap.setAll (s.assignedTo addr) []))
    ∧ (∀ addr, addr < s.heap.length → s.assignedTo addr ≠ [])

/-- The filter value that a call returns, as `Result` reads it right after the
call. -/
def filterOf (r : aggFilterRef × TermsHeap) : aggFilter := r.1.read r.2

/-- The members of a JSON object (none for another document). -/
def Json.members : Json → List (String × Json)
  | .obj ms => ms
  | _ => []

/-! ## es.go: the query builder -/

/-- Modelled from the spec: the interface `Filter` is declared outside the
embedded files; a filter is used only through the clause values that its
`Result()` returns. -/
structure Filter where
  Result : List Json

/-- The struct `cond`: clause values, kept as the JSON they encode to. -/
structure cond where
  must : List Json
  filter : List Json
  should : List Json
  not : List Json
  exists_ : List Json

/-- The struct `es`. `from_` and `size` are `uint64`. The map `agg` is never nil:
`ES()` allocates it and every other query is derived from such a value. -/
structure es where
  isAgg : Bool
  sorts : List String
  fields : List String
  indexName : String
  from_ : Nat
  size : Nat
  cond : cond
  agg : GoMap agg
  adjustPureNegative : Bool

/-- Source: `func ES() Client`. -/
def ES : es :=
  { isAgg := false, sorts := [], fields := [], indexName := "", from_ := 0, size := 0,
    cond := ⟨[], [], [], [], []⟩, agg := [], adjustPureNegative := false }

/-- Source: `func (e es) Clone() es`. The copy is made by `mapper.AllMapper`, a
library outside the repository; it is taken to be a deep copy, so the copy has
the field values of the receiver and shares no storage with it. -/
def es.Clone (e : es) : es := e

/-- Source: `func (e es) IndexName(name string) Client`. -/
def es.IndexName (e : es) (name : String) : es :=
  { e with indexName := name }

/-- Source: `func (e es) AdjustPurePegative(v bool) Client`. -/
def es.AdjustPurePegative (e : es) (v : Bool) : es :=
  let e := e.Clone
  { e with adjustPureNegative := v }

/-- Source: `func (e es) Not(filters ...Filter) Client`. -/
def es.Not (e : es) (filters : List (Option Filter)) : es :=
  filters.foldl
    (fun e filter =>
      match filter with
      | none => e
      | some f => { e with cond := { e.cond with not := e.cond.not ++ f.Result } })
    e.Clone

/-- Source: `func (e es) Where(filters ...Filter) Client`. -/
def es.Where (e : es) (filters : List (Option Filter)) : es :=
  filters.foldl
    (fun e filter =>
      match filter with
      | none => e
      | some f => { e with cond := { e.cond with must := e.cond.must ++ f.Result } })
    e.Clone

/-- Source: `func (e es) Or(filters ...Filter) Client`. -/
def es.Or (e : es) (filters : List (Option Filter)) : es :=
  filters.foldl
    (fun e filter =>
      match filter with
      | none => e
      | some f => { e with cond := { e.cond with should := e.cond.should ++ f.Result } })
    e.Clone

/-- Source: `func (e es) OrderBy(field string, isDesc bool) Client`. -/
def es.OrderBy (e : es) (field : String) (isDesc : Bool) : es :=
  let e := e.Clone
  if isDesc then { e with sorts := e.sorts ++ [field ++ ":desc"] }
  else { e with sorts := e.sorts ++ [field ++ ":asc"] }

/-- The loop `for _, agg := range aggs` of `es.Agg`; a nil `Agg` panics. -/
def aggLoop : List (Option agg) → es → Except Fault es
  | [], e => .ok e
  | none :: _, _ => .error nilDereference
  | some a :: rest, e =>
    let (name, value) := a.Result
    aggLoop rest { e with agg := GoMap.set name value e.agg }

/-- Source: `func (e es) Agg(aggs ...Agg) Client`. -/
def es.Agg (e : es) (aggs : List (Option Ges.agg)) : Except Fault es :=
  let e := e.Clone
  aggLoop aggs { e with isAgg := true }

/-- Source: `func (e es) Size(u uint64) Client`. -/
def es.Size (e : es) (u : Nat) : es :=
  let e := e.Clone
  { e with size := u }

/-- Source: `func (e es) Start(u uint64) Client`. -/
def es.Start (e : es) (u : Nat) : es :=
  let e := e.Clone
  { e with from_ := u }

/-- Source: `func (e es) Limit(from uint64, size uint64) Client`. -/
def es.Limit (e : es) (from_ size : Nat) : es :=
  let e := e.Clone
  { e with from_ := from_, size := size }

/-- The conversion `uint64(x)` of an `int64`. -/
def uint64OfInt64 (x : Int) : Nat := (x % 2 ^ 64).toNat

/-- Source: `func (e es) Limit64(from int64, size int64) Client`. -/
def es.Limit64 (e : es) (from_ size : Int) : es :=
  let e := e.Clone
  { e with from_ := uint64OfInt64 from_, size := uint64OfInt64 size }

/-- Source: `func (e es) Fields(fields ...string) Client`. -/
def es.Fields (e : es) (fields : List String) : es :=
  { e with fields := fields }

/-! ## es.go: the bulk writer `Save` -/

/-- The batch ceilings. They are constants declared outside the embedded files,
so they are parameters here. -/
structure Limits where
  MaxBulkItemsLimit : Nat
  BulkItemsLimit : Nat
  MaxBulkUpdateItemsLimit : Nat

/-- A call of `rawESClient.Bulk`: the NDJSON body and the request options
(`WithIndex`, `WithRefresh`, `WithTimeout` in seconds). -/
structure BulkRequest where
  body : String
  index : Option String
  refresh : Option String
  timeout : Option Nat
  deriving DecidableEq

/-- The errors a bulk operation returns: `fmt.Errorf("... support max %v items", limit)`,
a wrapped encoding error, the error of `rawESClient.Bulk`, the error of `parseBulkResp`. -/
inductive BulkError where
  | batchTooLarge (operation : String) (limit : Nat) : BulkError
  | encode (msg : String) : BulkError
  | client (msg : String) : BulkError
  | response (msg : String) : BulkError
  deriving DecidableEq

/-- What the bulk writer is run against. `jsonEncode` is `json.Encoder.Encode`
on a payload: the text it writes before the newline, or its error. `Bulk` is
`rawESClient.Bulk`; its answer may depend on the requests issued before.
`parseBulkResp` is declared outside the embedded files. -/
structure Backend (α ρ : Type) where
  limits : Limits
  jsonEncode : α → Except String String
  Bulk : List BulkRequest → BulkRequest → Except String ρ
  parseBulkResp : ρ → Except String Unit

/-- How a run ends: it returns `nil` or an error, or its loop never ends. -/
inductive Ending where
  | returned (err : Option BulkError) : Ending
  | diverges : Ending
  deriving DecidableEq

/-- A run of a bulk operation: the bulk calls issued, in order, and its ending. -/
structure Run where
  calls : List BulkRequest
  ending : Ending
  deriving DecidableEq

/-- The slice expression `l[lo:hi]`. -/
def slice {α : Type} (l : List α) (lo hi : Nat) : List α := (l.take hi).drop lo

/-- The action line of a create, with its newline. -/
def bulkInsertAction : String := "\x7b\"index\": \x7b\x7d\x7d" ++ "\n"

/-- The loop `for _, item := range items` of `Save`, writing to `byteBody`. -/
def saveItems {α : Type} (jsonEncode : α → Except String String) :
    List α → String → Except BulkError String
  | [], byteBody => .ok byteBody
  | item :: rest, byteBody =>
    match jsonEncode item with
    | .error err => .error (.encode err)
    | .ok line => saveItems jsonEncode rest (byteBody ++ bulkInsertAction ++ (line ++ "\n"))

/-- The options of the bulk calls of `Save`. -/
def es.saveRequest (e : es) (byteBody : String) : BulkRequest :=
  { body := byteBody, index := some e.indexName, refresh := some "true", timeout := some 20 }

/-- The loop `for now := 0; now < length; now += BulkItemsLimit` of `Save`, from
the iteration at `now` on, `calls` being the bulk calls issued so far. The first
argument bounds the number of iterations that are unfolded. -/
def es.saveLoop {α ρ : Type} (B : Backend α ρ) (e : es) (datas : List α) :
    Nat → Nat → List BulkRequest → Run
  | 0, _, calls => ⟨calls, .diverges⟩
  | fuel + 1, now, calls =>
    let length := datas.length
    if now < length then
      let items :=
        if now + B.limits.BulkItemsLimit > length then slice datas now length
        else slice datas now (now + B.limits.BulkItemsLimit)
      match saveItems B.jsonEncode items "" with
      | .error err => ⟨calls, .returned (some err)⟩
      | .ok byteBody =>
        if byteBody.length = 0 then
          es.saveLoop B e datas fuel (now + B.limits.BulkItemsLimit) calls
        else
          let request := e.saveRequest byteBody
          match B.Bulk calls request with
          | .error err => ⟨calls ++ [request], .returned (some (.client err))⟩
          | .ok res =>
            match B.parseBulkResp res with
            | .error err => ⟨calls ++ [request], .returned (some (.response err))⟩
            | .ok _ => es.saveLoop B e datas fuel (now + B.limits.BulkItemsLimit) (calls ++ [request])
    else ⟨calls, .returned none⟩

/-- Source: `func (e es) Save(ctx context.Context, datas ...interface{}) error`.
With a positive `BulkItemsLimit` the loop ends within `len(datas) + 1` iterations. -/
def es.Save {α ρ : Type} (B : Backend α ρ) (e : es) (datas : List α) : Run :=
  if datas.length > B.limits.MaxBulkItemsLimit then
    ⟨[], .returned (some (.batchTooLarge "batch insert" B.limits.BulkItemsLimit))⟩
  else
    es.saveLoop B e datas (datas.length + 1) 0 []

/-- The `i`-th sub-batch of `datas` for a ceiling `b` (counting from 0). -/
def subBatch {α : Type} (b : Nat) (datas : List α) (i : Nat) : List α :=
  (datas.drop (i * b)).take b

/-- The number of sub-batches: `len(datas) / b`, rounded up. -/
def batchCount (b n : Nat) : Nat := (n + b - 1) / b

/-- The NDJSON body of a batch: for each item the index action line and then
the payload line. -/
def saveBody {α : Type} (line : α → String) : List α → String
  | [] => ""
  | item :: rest => bulkInsertAction ++ (line item ++ "\n") ++ saveBody line rest

/-- The bulk requests of the first `k` sub-batches of `datas`, in order. -/
def es.saveRequests {α : Type} (e : es) (line : α → String) (b : Nat) (datas : List α)
    (k : Nat) : List BulkRequest :=
  (List.range k).map (fun i => e.saveRequest (saveBody line (subBatch b datas i)))

/-- A sample backend: payloads are their own encoding, at most 5 items are
accepted, a batch holds 2, and every bulk call succeeds. -/
def sampleBackend : Backend String Unit :=
  { limits := ⟨5, 2, 3⟩
    jsonEncode := fun s => .ok s
    Bulk := fun _ _ => .ok ()
    parseBulkResp := fun _ => .ok () }

/-- A sample backend whose second bulk call fails. -/
def failingBackend : Backend String Unit :=
  { limits := ⟨5, 2, 3⟩
    jsonEncode := fun s => .ok s
    Bulk := fun earlier _ => if earlier.length = 1 then .error "unavailable" else .ok ()
    parseBulkResp := fun _ => .ok () }

/-! ## es.go: update-style bulk writes -/

/-- Modelled from the spec: the interface `Document` and `NewDoc` are declared
outside the embedded files; a document is an id (empty for none) and a payload,
which `Item()`, `ID()` and `Doc()` return. -/
structure Document (α : Type) where
  id : String
  data : α

/-- The constructor `NewDoc(id, data)`. -/
def NewDoc {α : Type} (id : String) (data : α) : Document α := ⟨id, data⟩

/-- The value handed to `jd.Encode` for a document: the payload itself,
`mapStrAny{"doc": data}`, or `mapStrAny{"doc": data, "doc_as_upsert": true}`. -/
inductive BulkPayload (α : Type) where
  | plain (data : α) : BulkPayload α
  | doc (data : α) : BulkPayload α
  | docAsUpsert (data : α) : BulkPayload α

/-- What `json.Encoder.Encode` writes before the newline for a bulk payload. A
map is written with its keys in ascending order and without spaces; it fails to
encode when the payload inside does. -/
def encodePayload {α : Type} (jsonEncode : α → Except String String) :
    BulkPayload α → Except String String
  | .plain data => jsonEncode data
  | .doc data =>
    match jsonEncode data with
    | .error err => .error err
    | .ok text => .ok ("\x7b\"doc\":" ++ text ++ "\x7d")
  | .docAsUpsert data =>
    match jsonEncode data with
    | .error err => .error err
    | .ok text => .ok ("\x7b\"doc\":" ++ text ++ ",\"doc_as_upsert\":true\x7d")

/-- The action line of a create, without its newline. -/
def indexAction : String := "\x7b\"index\": \x7b\x7d\x7d"

/-- The action line of an update: the id is written between the quotes as it is,
`fmt.Sprintf` with the verb `%s`. -/
def updateAction (id : String) : String :=
  "\x7b\"update\": \x7b\"_id\": \"" ++ id ++ "\"\x7d\x7d"

/-- The end of a bulk operation: the call of `rawESClient.Bulk` and of
`parseBulkResp` on its response. -/
def bulkCall {α ρ : Type} (B : Backend α ρ) (request : BulkRequest) : Run :=
  match B.Bulk [] request with
  | .error err => ⟨[request], .returned (some (.client err))⟩
  | .ok res =>
    match B.parseBulkResp res with
    | .error err => ⟨[request], .returned (some (.response err))⟩
    | .ok _ => ⟨[request], .returned none⟩

/-- Source: `func (e es) UpdateById(ctx context.Context, id string, data interface{}) error`. -/
def es.UpdateById {α ρ : Type} (B : Backend α ρ) (e : es) (id : String) (data : α) : Run :=
  let bufferBody := updateAction id ++ "\n"
  match encodePayload B.jsonEncode (.doc data) with
  | .error err => ⟨[], .returned (some (.encode err))⟩
  | .ok text =>
    bulkCall B
      { body := bufferBody ++ (text ++ "\n"), index := some e.indexName,
        refresh := some "true", timeout := some 5 }

/-- The loop `for _, doc := range docs` of `MUpdateById`, writing to `bufferBody`. -/
def mUpdateItems {α : Type} (jsonEncode : α → Except String String) :
    List (Document α) → String → Except BulkError String
  | [], bufferBody => .ok bufferBody
  | doc :: rest, bufferBody =>
    match encodePayload jsonEncode (.doc doc.data) with
    | .error err => .error (.encode err)
    | .ok text =>
      mUpdateItems jsonEncode rest (bufferBody ++ updateAction doc.id ++ "\n" ++ (text ++ "\n"))

/-- Source: `func (e es) MUpdateById(ctx context.Context, docs ...Document) error`.
The bulk call carries no `WithIndex` option. -/
def es.MUpdateById {α ρ : Type} (B : Backend α ρ) (_e : es) (docs : List (Document α)) : Run :=
  if docs.length > B.limits.MaxBulkUpdateItemsLimit then
    ⟨[], .returned (some (.batchTooLarge "multi-update" B.limits.BulkItemsLimit))⟩
  else
    match mUpdateItems B.jsonEncode docs "" with
    | .error err => ⟨[], .returned (some err)⟩
    | .ok bufferBody =>
      bulkCall B
        { body := bufferBody, index := none, refresh := some "true", timeout := some 5 }

/-- The loop `for _, doc := range docs` of `MUpsertById`, writing to `bufferBody`. -/
def mUpsertItems {α : Type} (jsonEncode : α → Except String String) :
    List (Document α) → String → Except BulkError String
  | [], bufferBody => .ok bufferBody
  | doc :: rest, bufferBody =>
    let action := if doc.id = "" then indexAction else updateAction doc.id
    let data := if doc.id = "" then BulkPayload.plain doc.data else BulkPayload.docAsUpsert doc.data
    match encodePayload jsonEncode data with
    | .error err => .error (.encode err)
    | .ok text =>
      mUpsertItems jsonEncode rest (bufferBody ++ action ++ "\n" ++ (text ++ "\n"))

/-- Source: `func (e es) MUpsertById(ctx context.Context, docs ...Document) error`. -/
def es.MUpsertById {α ρ : Type} (B : Backend α ρ) (e : es) (docs : List (Document α)) : Run :=
  if docs.length > B.limits.MaxBulkUpdateItemsLimit then
    ⟨[], .returned (some (.batchTooLarge "multi-upsert" B.limits.BulkItemsLimit))⟩
  else
    match mUpsertItems B.jsonEncode docs "" with
    | .error err => ⟨[], .returned (some err)⟩
    | .ok bufferBody =>
      bulkCall B
        { body := bufferBody, index := some e.indexName, refresh := some "true",
          timeout := some 5 }

/-- Source: `func (e es) UpsertById(ctx context.Context, id string, doc interface{}) error`. -/
def es.UpsertById {α ρ : Type} (B : Backend α ρ) (e : es) (id : String) (doc : α) : Run :=
  e.MUpsertById B [NewDoc id doc]

/-- The loop `for _, doc := range docs` of `USave`, writing to `bufferBody`. -/
def uSaveItems {α : Type} (jsonEncode : α → Except String String) :
    List (Document α) → String → Except BulkError String
  | [], bufferBody => .ok bufferBody
  | doc :: rest, bufferBody =>
    let action := if doc.id = "" then indexAction else updateAction doc.id
    let newData := if doc.id = "" then BulkPayload.plain doc.data else BulkPayload.doc doc.data
    match encodePayload jsonEncode newData with
    | .error err => .error (.encode err)
    | .ok text =>
      uSaveItems jsonEncode rest (bufferBody ++ action ++ "\n" ++ (text ++ "\n"))

/-- Source: `func (e es) USave(ctx context.Context, docs ...Document) error`. -/
def es.USave {α ρ : Type} (B : Backend α ρ) (e : es) (docs : List (Document α)) : Run :=
  if docs.length > B.limits.MaxBulkUpdateItemsLimit then
    ⟨[], .returned (some (.batchTooLarge "usave" B.limits.BulkItemsLimit))⟩
  else
    match uSaveItems B.jsonEncode docs "" with
    | .error err => ⟨[], .returned (some err)⟩
    | .ok bufferBody =>
      bulkCall B
        { body := bufferBody, index := some e.indexName, refresh := some "true",
          timeout := some 5 }

/-- The lines of a body: the texts that end at each newline, and the text after
the last newline when there is one. -/
def bodyLinesAux : List Char → List Char → List String
  | [], [] => []
  | [], current => [String.mk current.reverse]
  | c :: rest, current =>
    if c = '\n' then String.mk current.reverse :: bodyLinesAux rest []
    else bodyLinesAux rest (c :: current)

/-- The lines of a bulk body. -/
def bodyLines (body : String) : List String := bodyLinesAux body.data []

/-- The concatenation of texts. -/
def concatTexts : List String → String
  | [] => ""
  | s :: rest => s ++ concatTexts rest

/-- The two lines that `MUpdateById` writes for a document whose payload encodes
to `text`: the update action line and the wrapped payload. -/
def updateLines {α : Type} (text : α → String) (doc : Document α) : String :=
  updateAction doc.id ++ "\n" ++ ("\x7b\"doc\":" ++ text doc.data ++ "\x7d" ++ "\n")

/-- The two lines that `MUpsertById` writes for a document whose payload encodes
to `text`: a create for an empty id, else an update with `doc_as_upsert`. -/
def upsertLines {α : Type} (text : α → String) (doc : Document α) : String :=
  if doc.id = "" then indexAction ++ "\n" ++ (text doc.data ++ "\n")
  else updateAction doc.id ++ "\n"
    ++ ("\x7b\"doc\":" ++ text doc.data ++ ",\"doc_as_upsert\":true\x7d" ++ "\n")

/-- The two lines that `USave` writes for a document whose payload encodes to
`text`: a create for an empty id, else an update without `doc_as_upsert`. -/
def uSaveLines {α : Type} (text : α → String) (doc : Document α) : String :=
  if doc.id = "" then indexAction ++ "\n" ++ (text doc.data ++ "\n")
  else updateAction doc.id ++ "\n" ++ ("\x7b\"doc\":" ++ text doc.data ++ "\x7d" ++ "\n")

/-- The request of an update-style bulk operation with a target index. -/
def es.updateRequest (e : es) (body : String) : BulkRequest :=
  { body := body, index := some e.indexName, refresh := some "true", timeout := some 5 }

/-! ## es.go: the result decoder -/

/-- What `reflect` tells about a struct field: its name, the value of the `json`
key of its tag, and whether it is exported. -/
structure FieldInfo where
  name : String
  jsonTag : String
  exported : Bool
  deriving DecidableEq

/-- Go values as `reflect` sees them in the decoder. A slice carries the zero
value of its element type, which `reflect.New` allocates. A map carries whether
a `string` key and a `string` value can be assigned to it, and is nil or holds
its entries. `str` is a value of type `string`; `other` stands for a value of any
other kind (a number, a boolean, a named string type, an array, ...). -/
inductive Value where
  | str (s : String) : Value
  | other (j : Json) : Value
  | iface (dynamic : Option Value) : Value
  | ptr (target : Option Value) : Value
  | slice (zero : Value) (items : List Value) : Value
  | map (acceptsString : Bool) (entries : Option (List (String × Value))) : Value
  | struct (fields : List (FieldInfo × Value)) : Value

/-- The kinds that the decoder tells apart. -/
inductive Kind where
  | Invalid | Ptr | Struct | Map | Slice | Interface | Other
  deriving DecidableEq

/-- Source: `reflect.Value.Kind`. -/
def Value.kind : Value → Kind
  | .str _ => .Other
  | .other _ => .Other
  | .iface _ => .Interface
  | .ptr _ => .Ptr
  | .slice _ _ => .Slice
  | .map _ _ => .Map
  | .struct _ => .Struct

/-- The kind of `v.Elem()` for a pointer: `Invalid` for a nil pointer. -/
def elemKind : Option Value → Kind
  | none => .Invalid
  | some v => v.kind

/-- The errors of the decoder. -/
inductive DecodeError where
  | notPointer : DecodeError
  | response (msg : String) : DecodeError
  | mapper (msg : String) : DecodeError
  | notFound : DecodeError
  | notInitialized : DecodeError
  | unsupportedShape : DecodeError
  | notSliceAddress : DecodeError
  | unmarshal (msg : String) : DecodeError
  | invalidUnmarshal : DecodeError
  | structInvalid : DecodeError
  | structNotSettable : DecodeError
  deriving DecidableEq

/-- Modelled from the spec: a hit of a search response, its id and raw source;
the type `SearchResultHitResult` is declared outside the embedded files. -/
structure SearchResultHitResult where
  Id : String
  Source : String
  deriving DecidableEq

/-- Modelled from the spec: the decoded search response, with the hits in engine
order (`Hits.IndexHits`), the engine total (`Hits.Total.Value`) and the raw
aggregations; the type `SearchResult` is declared outside the embedded files. -/
structure SearchResult where
  IndexHits : List SearchResultHitResult
  Total : Nat
  Aggregations : String
  deriving DecidableEq

/-- What the decoder is run against. `parseSearchRespDefaultDecode` is declared
outside the embedded files. `unmarshal` is `encoding/json` decoding a raw
document into the target of a non-nil pointer: the target afterwards and the
error, if any. `Mapper` is `mapper.Mapper` on the raw aggregations. -/
structure Codec (ρ : Type) where
  parseSearchRespDefaultDecode : ρ → Except String SearchResult
  unmarshal : String → Value → Value × Option String
  Mapper : String → Value → Value × Option String

/-- The outcome of `parseSearchResultIndexHit`: the value behind `elemp`
afterwards, the returned error, and whether a panic was recovered (the deferred
function prints it and the call returns a nil error). -/
structure HitResult where
  value : Value
  err : Option DecodeError
  recovered : Bool

/-- Source: `strings.Split(s, sep)` for a one-character separator. -/
def splitChars (sep : Char) : List Char → List (List Char)
  | [] => [[]]
  | c :: rest =>
    if c = sep then [] :: splitChars sep rest
    else
      match splitChars sep rest with
      | [] => [[c]]
      | first :: others => (c :: first) :: others

/-- The test of the inner loop of `parseSearchResultIndexHit` on a field:
some part of `strings.Split(field.Tag.Get("json"), ",")` is `_id` or `es_id`. -/
def FieldInfo.tagged (info : FieldInfo) : Bool :=
  (splitChars ',' info.jsonTag.data).any
    (fun tag => String.mk tag = "_id" || String.mk tag = "es_id")

/-- Source: `Field(i).Set(reflect.ValueOf(esID))`. It panics (`none`) unless the
field is exported and of type `string` or `interface{}`. -/
def setString (esID : String) (info : FieldInfo) : Value → Option Value
  | .str _ => if info.exported then some (.str esID) else none
  | .iface _ => if info.exported then some (.iface (some (.str esID))) else none
  | _ => none

/-- The loop over the fields of a struct in `parseSearchResultIndexHit`: the
fields afterwards and whether an assignment panicked, which ends the loop. -/
def injectFields (esID : String) :
    List (FieldInfo × Value) → List (FieldInfo × Value) × Bool
  | [] => ([], false)
  | field :: rest =>
    if field.1.tagged then
      match setString esID field.1 field.2 with
      | none => (field :: rest, true)
      | some v =>
        let (rest', panicked) := injectFields esID rest
        ((field.1, v) :: rest', panicked)
    else
      let (rest', panicked) := injectFields esID rest
      (field :: rest', panicked)

/-- Source: `SetMapIndex(reflect.ValueOf("_id"), reflect.ValueOf(esID))`. It
panics (`none`) on a nil map and on a map that cannot take the key or the value. -/
def setMapId (esID : String) (acceptsString : Bool)
    (entries : Option (List (String × Value))) : Option Value :=
  match acceptsString, entries with
  | true, some m => some (.map true (some (GoMap.set "_id" (.str esID) m)))
  | _, _ => none

/-- The part of `parseSearchResultIndexHit` after the decoding, for the value
`elemp`: the loop that follows pointers until the target is a struct or a map,
then the assignment of the id. -/
def injectId (esID : String) : Value → HitResult
  | .ptr none => ⟨.ptr none, none, true⟩
  | .ptr (some (.struct fields)) =>
    let (fields', panicked) := injectFields esID fields
    ⟨.ptr (some (.struct fields')), none, panicked⟩
  | .ptr (some (.map acceptsString entries)) =>
    match setMapId esID acceptsString entries with
    | none => ⟨.ptr (some (.map acceptsString entries)), none, true⟩
    | some m => ⟨.ptr (some m), none, false⟩
  | .ptr (some target) =>
    let r := injectId esID target
    ⟨.ptr (some r.value), r.err, r.recovered⟩
  | .iface none => ⟨.iface none, none, false⟩
  | .iface (some (.map acceptsString entries)) =>
    match setMapId esID acceptsString entries with
    | none => ⟨.iface (some (.map acceptsString entries)), none, true⟩
    | some m => ⟨.iface (some m), none, false⟩
  | .iface (some (.struct fields)) => ⟨.iface (some (.struct fields)), some .structNotSettable, false⟩
  | .iface (some dynamic) => ⟨.iface (some dynamic), none, false⟩
  | v => ⟨v, none, true⟩

/-- Source: `d.Decode(elemp.Interface())`: decoding into anything but a non-nil
pointer is refused, with an `InvalidUnmarshalError` (or, when the source is
malformed, with the syntax error of reading it; the two are not told apart). -/
def decodeInto {ρ : Type} (C : Codec ρ) (dataRaw : String) : Value → Value × Option DecodeError
  | .ptr (some target) =>
    let (target', err) := C.unmarshal dataRaw target
    (.ptr (some target'), err.map DecodeError.unmarshal)
  | v => (v, some .invalidUnmarshal)

/-- Source: `func (e es) parseSearchResultIndexHit(ctx, esID, dataRaw, elemp) error`. -/
def parseSearchResultIndexHit {ρ : Type} (C : Codec ρ) (esID : String) (dataRaw : String)
    (elemp : Value) : HitResult :=
  match decodeInto C dataRaw elemp with
  | (v, some err) => ⟨v, some err, false⟩
  | (v, none) => injectId esID v

/-- The value `elem.Elem()` of a non-nil pointer (`fallback` for another value). -/
def Value.pointee : Value → Value → Value
  | .ptr (some target), _ => target
  | _, fallback => fallback

/-- The loop `for _, indexHit := range resp.Hits.IndexHits` of
`parseSearchRespResultArray`, `slice` holding the elements appended so far. -/
def arrayLoop {ρ : Type} (C : Codec ρ) (zero : Value) :
    List SearchResultHitResult → List Value → Except DecodeError (List Value)
  | [], slice => .ok slice
  | indexHit :: rest, slice =>
    let r := parseSearchResultIndexHit C indexHit.Id indexHit.Source (.ptr (some zero))
    match r.err with
    | some err => .error err
    | none => arrayLoop C zero rest (slice ++ [r.value.pointee zero])

/-- The outcome of a decode call: the value of `results` afterwards, the
returned total and the returned error. -/
structure DecodeRun where
  results : Value
  total : Nat
  err : Option DecodeError

/-- Source: `func (e es) parseSearchRespResultArray(ctx, resp, resultV) error`:
the destination afterwards, or the error. -/
def parseSearchRespResultArray {ρ : Type} (C : Codec ρ) (resp : SearchResult) :
    Value → Except DecodeError Value
  | .ptr (some (.slice zero _)) =>
    match arrayLoop C zero resp.IndexHits [] with
    | .error err => .error err
    | .ok slice => .ok (.ptr (some (.slice zero slice)))
  | _ => .error .notSliceAddress

/-- Source: `func (e es) parseSearchRespResult(ctx, res, results) (uint64, error)`. -/
def es.parseSearchRespResult {ρ : Type} (C : Codec ρ) (e : es) (res : ρ) (results : Value) :
    DecodeRun :=
  match results with
  | .ptr target =>
    match C.parseSearchRespDefaultDecode res with
    | .error err => ⟨results, 0, some (.response err)⟩
    | .ok resp =>
      if e.isAgg then
        match C.Mapper resp.Aggregations results with
        | (results', some err) => ⟨results', 0, some (.mapper err)⟩
        | (results', none) => ⟨results', 0, none⟩
      else
        match elemKind target with
        | .Slice =>
          match parseSearchRespResultArray C resp results with
          | .error err => ⟨results, 0, some err⟩
          | .ok results' => ⟨results', resp.Total, none⟩
        | .Map =>
          match resp.IndexHits, target with
          | [], _ => ⟨results, 0, some .notFound⟩
          | _ :: _, some (.map _ none) => ⟨results, 0, some .notInitialized⟩
          | indexHit :: _, some elem =>
            let r := parseSearchResultIndexHit C indexHit.Id indexHit.Source elem
            match r.err with
            | some err => ⟨.ptr (some r.value), 0, some err⟩
            | none => ⟨.ptr (some r.value), resp.Total, none⟩
          | _ :: _, none => ⟨results, 0, some .unsupportedShape⟩
        | .Struct =>
          match resp.IndexHits with
          | [] => ⟨results, 0, some .notFound⟩
          | indexHit :: _ =>
            let r := parseSearchResultIndexHit C indexHit.Id indexHit.Source results
            match r.err with
            | some err => ⟨r.value, 0, some err⟩
            | none => ⟨r.value, resp.Total, none⟩
        | _ => ⟨results, 0, some .unsupportedShape⟩
  | _ => ⟨results, 0, some .notPointer⟩

/-- A sample codec: the response is handed over decoded, and a raw source is the
text of the field `title`: decoding it stores the text under `title` in a map
and in the struct fields with the tag `title`. -/
def sampleCodec : Codec SearchResult :=
  { parseSearchRespDefaultDecode := fun resp => .ok resp
    unmarshal := fun raw target =>
      match target with
      | .map a _ => (.map a (some [("title", .str raw)]), none)
      | .iface _ => (.iface (some (.map true (some [("title", .str raw)]))), none)
      | .struct fields =>
        (.struct (fields.map (fun f =>
          if f.1.jsonTag = "title" then (f.1, Value.str raw) else f)), none)
      | v => (v, some "json: cannot unmarshal")
    Mapper := fun _ target => (target, none) }


/-- The value of a field after the id was assigned to it: a `string` field holds
the id, an `interface{}` field holds the id as a string. -/
def withId (esID : String) (field : FieldInfo × Value) : FieldInfo × Value :=
  match field.2 with
  | .str _ => (field.1, .str esID)
  | .iface _ => (field.1, .iface (some (.str esID)))
  | _ => field

/-- A field that `Set` can assign a string to: exported, of type `string` or
`interface{}`. -/
def settable (field : FieldInfo × Value) : Bool :=
  field.1.exported &&
    (match field.2 with
      | .str _ => true
      | .iface _ => true
      | _ => false)

/-- Whether a decoded element has a place that takes the id: an initialized map
with `string` keys that can hold a string, a struct whose fields tagged `_id` or
`es_id` are all exported fields of type `string` or `interface{}`, a pointer to
such a value, or an `interface{}` that holds such a map. -/
def takesId : Value → Bool
  | .map true (some _) => true
  | .struct fields => fields.all (fun f => !f.1.tagged || settable f)
  | .ptr (some target) => takesId target
  | .iface (some (.map true (some _))) => true
  | _ => false

/-- A decoded element with the id of its hit injected, in the words of the
claims: a map holds the id under the key `_id`, a struct holds it in each field
tagged `_id` or `es_id`, and no other entry or field is changed. -/
def idInjected (esID : String) : Value → Value
  | .map true (some m) => .map true (some (GoMap.set "_id" (.str esID) m))
  | .struct fields => .struct (fields.map (fun f => if f.1.tagged then withId esID f else f))
  | .ptr (some target) => .ptr (some (idInjected esID target))
  | .iface (some (.map true (some m))) =>
    .iface (some (.map true (some (GoMap.set "_id" (.str esID) m))))
  | v => v

/-! ## es.go: the query body and `Count` -/

/-- The encoding of the aggregation map of a query: each node is written by its
`MarshalJSON`, under its name, in key order; the failure of a `MarshalJSON` is
passed on as `encoding/json` does. -/
def encodeAggs : GoMap agg → Except Fault (GoMap Json)
  | [] => .ok []
  | (name, node) :: rest =>
    match node.MarshalJSON with
    | .error fault => .error (marshalerError fault)
    | .ok encoded =>
      match encodeAggs rest with
      | .error fault => .error fault
      | .ok others => .ok ((name, encoded) :: others)

/-- Source: `func (e es) buildQuery(ctx context.Context) (*bytes.Buffer, error)`,
the body as the JSON document it holds. Modelled from the spec: the struct
`esCondition` is declared outside the embedded files; it is written as
`{"query": {"bool": {"must", "must_not", "should", "adjust_pure_negative"}}, "aggs"}`.
The encoder stops at the first value that it cannot write. -/
def es.buildQuery (e : es) : Except Fault Json :=
  if encodableItems e.cond.must && encodableItems e.cond.not
      && encodableItems e.cond.should then
    match encodeAggs e.agg with
    | .error (.panic msg) => .error (.panic msg)
    | .error (.error msg) => .error (.error ("search condition build error. " ++ msg))
    | .ok aggs =>
      .ok (Json.obj [
        ("query", Json.obj [("bool", Json.obj [
          ("must", Json.arr e.cond.must),
          ("must_not", Json.arr e.cond.not),
          ("should", Json.arr e.cond.should),
          ("adjust_pure_negative", Json.bool e.adjustPureNegative)])]),
        ("aggs", Json.obj aggs)])
  else .error (.error "search condition build error. json: unsupported value")

/-- A call of `rawESClient.Count`: the options `WithIndex` and `WithBody`. -/
structure CountRequest where
  index : String
  body : Json

/-- Modelled from the spec: the decoded count response; the type `CountResult`
is declared outside the embedded files. `Error` is nil or the reported error. -/
structure CountResult where
  Error : Option String
  Count : Nat

/-- What `Count` is run against: `rawESClient.Count`, the method `IsError` of its
response, the text of the response (its method `String`), and the decoding of the
response body into a `CountResult`. -/
structure CountClient (ρ : Type) where
  Count : CountRequest → Except String ρ
  IsError : ρ → Bool
  Text : ρ → String
  Decode : ρ → Except String CountResult

/-- Source: `func (e es) parseCountRespResult(ctx, respBody) (uint64, error)`. -/
def es.parseCountRespResult {ρ : Type} (K : CountClient ρ) (_e : es) (res : ρ) :
    Except Fault Nat :=
  match K.Decode res with
  | .error err => .error (.error err)
  | .ok resp =>
    match resp.Error with
    | some err => .error (.error err)
    | none => .ok resp.Count

/-- A run of `Count`: the count requests issued and the returned count or failure. -/
structure CountRun where
  requests : List CountRequest
  result : Except Fault Nat

/-- Source: `func (e es) Count(ctx context.Context) (uint64, error)`. The
assignment `e.size = 0` is to the copy of the receiver that the method owns. -/
def es.Count {ρ : Type} (K : CountClient ρ) (e : es) : CountRun :=
  let e := { e with size := 0 }
  match e.buildQuery with
  | .error fault => ⟨[], .error fault⟩
  | .ok queryBody =>
    let request : CountRequest := ⟨e.indexName, queryBody⟩
    match K.Count request with
    | .error err => ⟨[request], .error (.error err)⟩
    | .ok res =>
      if K.IsError res then ⟨[request], .error (.error (K.Text res))⟩
      else ⟨[request], e.parseCountRespResult K res⟩

/-- A sample count client that answers every request with the count 3. -/
def sampleCountClient : CountClient Nat :=
  { Count := fun _ => .ok 3
    IsError := fun _ => false
    Text := fun _ => ""
    Decode := fun n => .ok ⟨none, n⟩ }

/-- A query on the index `books` with one registered aggregation, as
`ES().IndexName("books").Agg(AggDistinct("author", 10))` builds it. -/
def sampleAggQuery : es :=
  { ES with indexName := "books", isAgg := true,
            agg := [("author", (agg.zero.Name "author").Distinct "author" 10)] }

/-- A sample codec that cannot decode an empty source and decodes every other
source as `sampleCodec` does. -/
def strictCodec : Codec SearchResult :=
  { parseSearchRespDefaultDecode := fun resp => .ok resp
    unmarshal := fun raw target =>
      if raw = "" then (target, some "unexpected end of JSON input")
      else sampleCodec.unmarshal raw target
    Mapper := fun _ target => (target, none) }

/-! # Theorems -/

/-! ## Go maps -/

theorem GoMap.set_comm {V : Type} (k₁ k₂ : String) (v₁ v₂ : V) (h : k₁ ≠ k₂) (m : GoMap V) :
    GoMap.set k₁ v₁ (GoMap.set k₂ v₂ m) = GoMap.set k₂ v₂ (GoMap.set k₁ v₁ m) := by
  have hd : k₁.data ≠ k₂.data := fun e => h (String.ext e)
  have h' : k₂ ≠ k₁ := Ne.symm h
  have irr : ∀ k : String, ¬ k.data < k.data := fun k => lt_irrefl _
  induction m with
  | nil =>
    rcases lt_trichotomy k₁.data k₂.data with h1 | h1 | h1
    · simp [GoMap.set, h1, h, h', lt_asymm h1]
    · exact absurd h1 hd
    · simp [GoMap.set, h1, h, h', lt_asymm h1]
  | cons kv rest ih =>
    obtain ⟨k, v⟩ := kv
    rcases lt_trichotomy k₁.data k₂.data with c | c | c
    · have c' := lt_asymm c
      rcases lt_trichotomy k₂.data k.data with b | b | b
      · have a := lt_trans c b
        simp [GoMap.set, a, b, c, c', h, h']
      · have e : k₂ = k := String.ext b
        subst e
        simp [GoMap.set, c, c', h, h', irr]
      · have b' := lt_asymm b
        have hk : k₂ ≠ k := fun e => irr k (e ▸ b)
        rcases lt_trichotomy k₁.data k.data with a | a | a
        · simp [GoMap.set, a, b, b', c, c', h, h', hk]
        · have e : k₁ = k := String.ext a
          subst e
          simp [GoMap.set, b, b', c, c', h, h', hk, irr]
        · have hk1 : k₁ ≠ k := fun e => irr k (e ▸ a)
          simp [GoMap.set, a, lt_asymm a, b, b', hk, hk1, ih]
    · exact absurd c hd
    · have c' := lt_asymm c
      rcases lt_trichotomy k₁.data k.data with b | b | b
      · have a := lt_trans c b
        simp [GoMap.set, a, b, c, c', h, h']
      · have e : k₁ = k := String.ext b
        subst e
        simp [GoMap.set, c, c', h, h', irr]
      · have b' := lt_asymm b
        have hk : k₁ ≠ k := fun e => irr k (e ▸ b)
        rcases lt_trichotomy k₂.data k.data with a | a | a
        · simp [GoMap.set, a, b, b', c, c', h, h', hk]
        · have e : k₂ = k := String.ext a
          subst e
          simp [GoMap.set, b, b', c, c', h, h', hk, irr]
        · have hk1 : k₂ ≠ k := fun e => irr k (e ▸ a)
          simp [GoMap.set, a, lt_asymm a, b, b', hk, hk1, ih]

theorem GoMap.get_cons {V : Type} (k₀ : String) (v₀ : V) (m : GoMap V) (k' : String) :
    GoMap.get ((k₀, v₀) :: m) k' = if k₀ = k' then some v₀ else GoMap.get m k' := by
  by_cases h : k₀ = k' <;> simp [GoMap.get, List.find?, h]

theorem GoMap.get_set {V : Type} (k : String) (v : V) (m : GoMap V) (k' : String) :
    GoMap.get (GoMap.set k v m) k' = if k' = k then some v else GoMap.get m k' := by
  induction m with
  | nil => by_cases h : k' = k <;> simp [GoMap.set, GoMap.get, h, eq_comm]
  | cons kv rest ih =>
    obtain ⟨k₀, v₀⟩ := kv
    by_cases hk : k' = k
    · subst hk
      rw [if_pos rfl]
      simp only [GoMap.set]
      split_ifs with h1 h2
      · simp [GoMap.get_cons]
      · simp [GoMap.get_cons]
      · rw [GoMap.get_cons, if_neg (Ne.symm h2), ih, if_pos rfl]
    · rw [if_neg hk] at ih ⊢
      have hk' : ¬ k = k' := fun e => hk e.symm
      simp only [GoMap.set]
      split_ifs with h1 h2
      · rw [GoMap.get_cons, if_neg hk']
      · subst h2; rw [GoMap.get_cons, GoMap.get_cons, if_neg hk', if_neg hk']
      · rw [GoMap.get_cons, GoMap.get_cons, ih]

theorem GoMap.mem_keys_set {V : Type} (k : String) (v : V) (m : GoMap V) (k' : String) :
    k' ∈ GoMap.keys (GoMap.set k v m) ↔ k' = k ∨ k' ∈ GoMap.keys m := by
  induction m with
  | nil => simp [GoMap.set, GoMap.keys]
  | cons kv rest ih =>
    obtain ⟨k₀, v₀⟩ := kv
    simp only [GoMap.set]
    split_ifs with h1 h2
    · simp [GoMap.keys]
    · subst h2; simp [GoMap.keys]
    · simp only [GoMap.keys] at ih ⊢
      simp only [List.map_cons, List.mem_cons, ih]
      tauto

theorem GoMap.ascending_set {V : Type} (k : String) (v : V) (m : GoMap V)
    (hm : m.Pairwise (fun a b => a.1.data < b.1.data)) :
    (GoMap.set k v m).Pairwise (fun a b => a.1.data < b.1.data) := by
  induction m with
  | nil => simp [GoMap.set]
  | cons kv rest ih =>
    obtain ⟨k₀, v₀⟩ := kv
    rw [List.pairwise_cons] at hm
    simp only [GoMap.set]
    split_ifs with h1 h2
    · refine List.pairwise_cons.2 ⟨?_, List.pairwise_cons.2 hm⟩
      intro b hb
      rcases List.mem_cons.1 hb with e | e
      · subst e; exact h1
      · exact lt_trans h1 (hm.1 b e)
    · subst h2
      exact List.pairwise_cons.2 hm
    · refine List.pairwise_cons.2 ⟨?_, ih hm.2⟩
      intro b hb
      have hb' : b.1 ∈ GoMap.keys (GoMap.set k v rest) := List.mem_map_of_mem _ hb
      rcases (GoMap.mem_keys_set k v rest b.1).1 hb' with e | e
      · rw [e]
        rcases lt_trichotomy k.data k₀.data with c | c | c
        · exact absurd c h1
        · exact absurd (String.ext c) h2
        · exact c
      · obtain ⟨b', hb'', e'⟩ := List.mem_map.1 e
        rw [← e']
        exact hm.1 b' hb''

theorem GoMap.nodup_keys {V : Type} (m : GoMap V)
    (hm : m.Pairwise (fun a b => a.1.data < b.1.data)) : (GoMap.keys m).Nodup := by
  unfold GoMap.keys
  unfold List.Nodup
  rw [List.pairwise_map]
  exact hm.imp (fun {a b} hab => fun e : a.1 = b.1 => absurd hab (by rw [e]; exact lt_irrefl _))

theorem GoMap.setAll_cons {V : Type} (kv : String × V) (rest : List (String × V))
    (init : GoMap V) :
    GoMap.setAll (kv :: rest) init = GoMap.setAll rest (GoMap.set kv.1 kv.2 init) := rfl

theorem GoMap.setAll_append {V : Type} (pre post : List (String × V)) (init : GoMap V) :
    GoMap.setAll (pre ++ post) init = GoMap.setAll post (GoMap.setAll pre init) := by
  simp [GoMap.setAll, List.foldl_append]

theorem GoMap.setAll_get_of_not_mem {V : Type} (post : List (String × V)) (init : GoMap V)
    (k : String) (h : ∀ g ∈ post, g.1 ≠ k) :
    (GoMap.setAll post init).get k = init.get k := by
  induction post generalizing init with
  | nil => rfl
  | cons b rest ih =>
    rw [GoMap.setAll_cons, ih _ (fun g hg => h g (List.mem_cons_of_mem _ hg)), GoMap.get_set,
      if_neg (Ne.symm (h b (List.mem_cons_self _ _)))]

theorem GoMap.setAll_get_last {V : Type} (pre post : List (String × V)) (kv : String × V)
    (init : GoMap V) (h : ∀ g ∈ post, g.1 ≠ kv.1) :
    (GoMap.setAll (pre ++ kv :: post) init).get kv.1 = some kv.2 := by
  rw [GoMap.setAll_append, GoMap.setAll_cons, GoMap.setAll_get_of_not_mem _ _ _ h,
    GoMap.get_set, if_pos rfl]

theorem GoMap.setAll_mem_keys {V : Type} (kvs : List (String × V)) (init : GoMap V)
    (k : String) :
    k ∈ GoMap.keys (GoMap.setAll kvs init) ↔ (∃ kv ∈ kvs, kv.1 = k) ∨ k ∈ GoMap.keys init := by
  induction kvs generalizing init with
  | nil => simp [GoMap.setAll]
  | cons b rest ih =>
    rw [GoMap.setAll_cons, ih, GoMap.mem_keys_set]
    simp only [List.mem_cons, exists_eq_or_imp]
    constructor
    · rintro (h | h | h)
      · exact Or.inl (Or.inr h)
      · exact Or.inl (Or.inl h.symm)
      · exact Or.inr h
    · rintro ((h | h) | h)
      · exact Or.inr (Or.inl h.symm)
      · exact Or.inl h
      · exact Or.inr (Or.inr h)

theorem GoMap.setAll_ascending {V : Type} (kvs : List (String × V)) (init : GoMap V)
    (h : init.Pairwise (fun a b => a.1.data < b.1.data)) :
    (GoMap.setAll kvs init).Pairwise (fun a b => a.1.data < b.1.data) := by
  induction kvs generalizing init with
  | nil => exact h
  | cons b rest ih => exact ih _ (GoMap.ascending_set _ _ _ h)

theorem GoMap.setAll_perm {V : Type} (l₁ l₂ : List (String × V)) (hp : l₁.Perm l₂)
    (hn : (l₁.map Prod.fst).Nodup) (init : GoMap V) :
    GoMap.setAll l₁ init = GoMap.setAll l₂ init := by
  induction hp generalizing init with
  | nil => rfl
  | cons x _ ih =>
    rw [GoMap.setAll_cons, GoMap.setAll_cons]
    exact ih (List.nodup_cons.1 hn).2 _
  | swap x y l =>
    rw [GoMap.setAll_cons, GoMap.setAll_cons, GoMap.setAll_cons, GoMap.setAll_cons]
    have hxy : x.1 ≠ y.1 := by
      intro e
      have := (List.nodup_cons.1 hn).1
      simp [e] at this
    rw [GoMap.set_comm _ _ _ _ hxy]
  | trans p₁ _ ih₁ ih₂ =>
    rw [ih₁ hn, ih₂ ((p₁.map _).nodup_iff.1 hn)]

/-! ## The bucket loop of `agg.MarshalJSON` -/

theorem marshalBuckets_some (buckets : List aggFilter) (init : GoMap Json) :
    marshalBuckets (buckets.map some) init = .ok (bucketsMap buckets init) := by
  induction buckets generalizing init with
  | nil => rfl
  | cons b rest ih => simp [marshalBuckets, bucketsMap, ih]

theorem aggFilter_Result_fst (a : aggFilter) : a.Result.1 = a.name := by
  unfold aggFilter.Result
  cases a.terms <;> rfl

theorem bucketsMap_eq (buckets : List aggFilter) (init : GoMap Json) :
    bucketsMap buckets init
      = GoMap.setAll (buckets.map (fun f => (f.name, Json.obj f.Result.2))) init := by
  simp [bucketsMap, GoMap.setAll, List.foldl_map, aggFilter_Result_fst]

/-! ## Serialization of a filters aggregation -/

theorem encodableMembers_set (k : String) (v : Json) (m : GoMap Json)
    (hv : v.encodable = true) (hm : encodableMembers m = true) :
    encodableMembers (GoMap.set k v m) = true := by
  induction m with
  | nil => simp [GoMap.set, encodableMembers, hv]
  | cons kv rest ih =>
    obtain ⟨k₀, v₀⟩ := kv
    simp only [encodableMembers, Bool.and_eq_true] at hm
    simp only [GoMap.set]
    split_ifs
    · simp [encodableMembers, hv, hm.1, hm.2]
    · simp [encodableMembers, hv, hm.2]
    · simp [encodableMembers, hm.1, ih hm.2]

theorem encodableMembers_bucketsMap (buckets : List aggFilter) (init : GoMap Json)
    (hb : ∀ b ∈ buckets, (Json.obj b.Result.2).encodable = true)
    (hi : encodableMembers init = true) :
    encodableMembers (bucketsMap buckets init) = true := by
  induction buckets generalizing init with
  | nil => exact hi
  | cons b rest ih =>
    exact ih _ (fun g hg => hb g (List.mem_cons_of_mem _ hg))
      (encodableMembers_set _ _ _ (hb b (List.mem_cons_self _ _)) hi)

theorem agg_marshal_filters (name : String) (buckets : List aggFilter) (sub : agg)
    (dh : Option aggDateHistogram) (d : Option aggDistinct) (raw : Option Json) :
    (agg.mk name (some (.mk (buckets.map some) (some sub))) dh d raw).MarshalJSON
      = (match sub.MarshalJSON with
          | .error fault => .error (marshalerError fault)
          | .ok encoded =>
            if (Json.obj (bucketsMap buckets [])).encodable then
              .ok (Json.obj [("aggs", Json.obj [(sub.name, encoded)]),
                ("filters", Json.obj [("filters", Json.obj (bucketsMap buckets []))])])
            else .error jsonUnsupported) := by
  simp only [agg.MarshalJSON, aggFilters.marshal, marshalBuckets_some]
  cases hsub : sub.MarshalJSON with
  | error e => rfl
  | ok j => rfl

theorem agg_marshal_filters_ok (name : String) (buckets : List aggFilter) (sub : agg)
    (dh : Option aggDateHistogram) (d : Option aggDistinct) (raw : Option Json) (encoded : Json)
    (hs : sub.MarshalJSON = .ok encoded)
    (hb : ∀ b ∈ buckets, (Json.obj b.Result.2).encodable = true) :
    (agg.mk name (some (.mk (buckets.map some) (some sub))) dh d raw).MarshalJSON
      = .ok (Json.obj [("aggs", Json.obj [(sub.name, encoded)]),
          ("filters", Json.obj [("filters", Json.obj (bucketsMap buckets []))])]) := by
  have he : (Json.obj (bucketsMap buckets [])).encodable = true := by
    rw [Json.encodable]
    exact encodableMembers_bucketsMap _ _ hb rfl
  rw [agg_marshal_filters, hs]
  simp only [he, if_true]

theorem buckets_of_all (l : List (Option aggFilter))
    (h : l.all (fun bucket =>
      match bucket with
      | none => false
      | some item => (Json.obj item.Result.2).encodable) = true) :
    ∃ xs : List aggFilter, l = xs.map some
      ∧ ∀ x ∈ xs, (Json.obj x.Result.2).encodable = true := by
  induction l with
  | nil => exact ⟨[], rfl, by simp⟩
  | cons a rest ih =>
    simp only [List.all_cons, Bool.and_eq_true] at h
    obtain ⟨xs, hxs, hall⟩ := ih h.2
    cases a with
    | none => simp at h
    | some x =>
      refine ⟨x :: xs, by simp [hxs], ?_⟩
      intro y hy
      rcases List.mem_cons.1 hy with e | e
      · rw [e]; exact h.1
      · exact hall y e

mutual
theorem agg_marshal_ok : ∀ a : agg, a.wellFormed = true → ∃ j, a.MarshalJSON = .ok j
  | .mk _ none (some _) _ _, _ => ⟨_, rfl⟩
  | .mk _ none none (some _) _, _ => ⟨_, rfl⟩
  | .mk _ none none none _, _ => ⟨_, rfl⟩
  | .mk _ (some fs) _ _ _, h => by
    have := aggFilters_marshal_ok fs (by simpa [agg.wellFormed] using h)
    simpa [agg.MarshalJSON] using this
theorem aggFilters_marshal_ok :
    ∀ fs : aggFilters, fs.wellFormed = true → ∃ j, fs.marshal = .ok j
  | .mk _ none, h => by simp [aggFilters.wellFormed] at h
  | .mk bs (some sub), h => by
    simp only [aggFilters.wellFormed, Bool.and_eq_true] at h
    obtain ⟨j, hj⟩ := agg_marshal_ok sub h.2
    obtain ⟨xs, hxs, hall⟩ := buckets_of_all bs h.1
    subst hxs
    have := agg_marshal_filters_ok "" xs sub none none none j hj hall
    rw [agg.MarshalJSON] at this
    exact ⟨_, this⟩
end

theorem marshalBuckets_error (buckets : List (Option aggFilter)) (init : GoMap Json)
    (e : Fault) (h : marshalBuckets buckets init = .error e) : e = nilDereference := by
  induction buckets generalizing init with
  | nil => simp [marshalBuckets] at h
  | cons b rest ih =>
    cases b with
    | none =>
      simp only [marshalBuckets, Except.error.injEq] at h
      exact h.symm
    | some f => exact ih _ (by simpa [marshalBuckets] using h)

/-! ## Claims on the aggregation model -/

/-- C1, the claim fails: a node whose filters are set with a non-nil
sub-aggregation is not always serialized. With a nil filter among the filters
the call panics; with a sub-aggregation that was itself built by `Filter(nil)`
the call panics; with a term value that cannot be written the call returns the
error of `json.Marshal`. -/
theorem agg_filters_nil_filter_panics :
    (agg.zero.Filter (some agg.zero) [none]).MarshalJSON = .error nilDereference
      ∧ (¬ ∃ j, (agg.zero.Filter (some agg.zero) [none]).MarshalJSON = .ok j)
      ∧ (agg.zero.Filter (some (agg.zero.Filter none [])) []).MarshalJSON
          = .error nilDereference
      ∧ (agg.zero.Filter (some agg.zero)
            [some (filterOf ((AggFilterName "open").TermsArray "status"
              (Json.unsupported "NaN") []))]).MarshalJSON
          = .error jsonUnsupported := by
  refine ⟨rfl, ?_, rfl, rfl⟩
  rintro ⟨j, hj⟩
  have h : (agg.zero.Filter (some agg.zero) [none]).MarshalJSON = .error nilDereference := rfl
  rw [h] at hj
  exact Except.noConfusion hj

/-- C1, amended: a node whose filters are set serializes exactly like the same
node with `dataHistogram`, `distinct` and `raw` cleared, whatever these three
hold and whatever the outcome is. When the filters are non-nil with term values
that can be written and the sub-aggregation is non-nil and serializes, the output
is the object with exactly the two keys `aggs` and `filters`, built around the
serialization of the sub-aggregation; the sub-aggregation serializes when each
`Filter` call in it, at any depth, received such arguments. -/
theorem agg_filters_override_other_shapes (name : String) (fs : aggFilters)
    (dh : Option aggDateHistogram) (d : Option aggDistinct) (raw : Option Json) :
    (agg.mk name (some fs) dh d raw).MarshalJSON
        = (agg.mk name (some fs) none none none).MarshalJSON
      ∧ ∀ (buckets : List aggFilter) (sub : agg),
          fs = aggFilters.mk (buckets.map some) (some sub) →
          (∀ b ∈ buckets, (Json.obj b.Result.2).encodable = true) →
          ∃ filters, marshalBuckets (buckets.map some) [] = .ok filters
            ∧ (∀ encoded, sub.MarshalJSON = .ok encoded →
                (agg.mk name (some fs) dh d raw).MarshalJSON
                  = .ok (Json.obj [("aggs", Json.obj [(sub.name, encoded)]),
                      ("filters", Json.obj [("filters", Json.obj filters)])]))
            ∧ (sub.wellFormed = true → ∃ encoded, sub.MarshalJSON = .ok encoded) := by
  refine ⟨by simp [agg.MarshalJSON], ?_⟩
  intro buckets sub hfs hb
  refine ⟨bucketsMap buckets [], marshalBuckets_some _ _, ?_, agg_marshal_ok sub⟩
  intro encoded henc
  rw [hfs]
  exact agg_marshal_filters_ok _ _ _ _ _ _ _ henc hb

/-- C1 amended, at a node on which `DateHistogram`, `Distinct`, `Raw` and `Filter`
were all called, with the filter `AggFilterName("open").Terms("status", "open")`. -/
theorem agg_filters_override_other_shapes_witness :
    (∀ b ∈ [filterOf ((AggFilterName "open").Terms "status" (some [Json.str "open"]) [])],
        (Json.obj b.Result.2).encodable = true)
      ∧ (agg.mk "by_status"
            (some (aggFilters.mk
              ([filterOf ((AggFilterName "open").Terms "status" (some [Json.str "open"]) [])].map
                some)
              (some (agg.zero.Name "count"))))
            (some ⟨"ts", "day", "", "", ""⟩) (some ⟨"status", 10⟩) (some Json.null)).MarshalJSON
          = .ok (Json.obj [("aggs", Json.obj [("count", Json.obj [])]),
              ("filters", Json.obj [("filters", Json.obj [("open",
                Json.obj [("terms", Json.obj [("status", Json.arr [Json.str "open"])])])])])]) := by
  have hb : ∀ b ∈ [filterOf ((AggFilterName "open").Terms "status" (some [Json.str "open"]) [])],
      (Json.obj b.Result.2).encodable = true := by
    intro b hb
    rw [List.mem_singleton.1 hb]
    rfl
  refine ⟨hb, ?_⟩
  obtain ⟨filters, hf, hout, _⟩ := (agg_filters_override_other_shapes "by_status"
    (aggFilters.mk
      ([filterOf ((AggFilterName "open").Terms "status" (some [Json.str "open"]) [])].map some)
      (some (agg.zero.Name "count")))
    (some ⟨"ts", "day", "", "", ""⟩) (some ⟨"status", 10⟩) (some Json.null)).2
    [filterOf ((AggFilterName "open").Terms "status" (some [Json.str "open"]) [])]
    (agg.zero.Name "count") rfl hb
  have hf' : filters = [("open",
      Json.obj [("terms", Json.obj [("status", Json.arr [Json.str "open"])])])] := by
    have h0 : marshalBuckets
        ([filterOf ((AggFilterName "open").Terms "status" (some [Json.str "open"]) [])].map some) []
        = .ok [("open",
            Json.obj [("terms", Json.obj [("status", Json.arr [Json.str "open"])])])] := rfl
    rw [h0] at hf
    exact (Except.ok.inj hf).symm
  rw [hout (Json.obj []) rfl, hf']
  rfl

/-- C2: without filters, a node with a date histogram serializes to
`{"date_histogram": H}` (whether or not `distinct` is set), where the members of
`H` are exactly the non-empty ones of the five fields; otherwise a node with
`distinct` serializes to `{"terms": {"field": f, "size": n}}`; otherwise the
output is `{}`, in particular after `Raw` alone. -/
theorem agg_marshal_without_filters (name : String) (raw : Option Json) :
    (∀ (h : aggDateHistogram) (d : Option aggDistinct),
        (agg.mk name none (some h) d raw).MarshalJSON
          = .ok (Json.obj [("date_histogram", h.toJson)]))
      ∧ (∀ (h : aggDateHistogram) (k : String) (v : Json),
          (k, v) ∈ h.toJson.members ↔
            ∃ s, s ≠ "" ∧ v = Json.str s ∧
              ((k = "field" ∧ s = h.Field) ∨ (k = "calendar_interval" ∧ s = h.CalendarInterval)
                ∨ (k = "format" ∧ s = h.Format) ∨ (k = "offset" ∧ s = h.Offset)
                ∨ (k = "time_zone" ∧ s = h.TimeZone)))
      ∧ (∀ d : aggDistinct,
          (agg.mk name none none (some d) raw).MarshalJSON
            = .ok (Json.obj [("terms",
                Json.obj [("field", Json.str d.Field), ("size", Json.num d.Size)])]))
      ∧ (agg.mk name none none none raw).MarshalJSON = .ok (Json.obj [])
      ∧ (∀ r : Json, ((agg.zero.Name name).Raw r).MarshalJSON = .ok (Json.obj [])) := by
  refine ⟨fun h d => rfl, ?_, fun d => rfl, rfl, fun r => rfl⟩
  intro h k v
  obtain ⟨f, c, fm, o, t⟩ := h
  simp only [aggDateHistogram.toJson, Json.members, List.mem_filterMap, List.mem_cons,
    List.mem_singleton, List.not_mem_nil, or_false]
  constructor
  · rintro ⟨⟨k', s⟩, hmem, hres⟩
    by_cases hs : s = ""
    · simp [hs] at hres
    · simp only [hs, if_false, Option.some.injEq, Prod.mk.injEq] at hres
      obtain ⟨rfl, rfl⟩ := hres
      refine ⟨s, hs, rfl, ?_⟩
      simpa [Prod.mk.injEq] using hmem
  · rintro ⟨s, hs, rfl, hk⟩
    refine ⟨(k, s), ?_, by simp [hs]⟩
    simpa [Prod.mk.injEq] using hk

/-! ### Named filters -/

theorem aggFilterRef_read_none (a : aggFilterRef) (heap : TermsHeap) (h : a.terms = none) :
    (a.read heap).Result = (a.name, []) := by
  unfold aggFilterRef.read
  rw [h]
  rfl

theorem aggFilterRef_read_some (a : aggFilterRef) (heap : TermsHeap) (addr : Nat)
    (T : GoMap Json) (h : a.terms = some addr) (hT : heap[addr]? = some T) :
    (a.read heap).Result = (a.name, [("terms", Json.obj T)]) := by
  unfold aggFilterRef.read
  rw [h]
  simp only [hT]
  rfl

theorem TermsCall_apply_eq (c : TermsCall) (a : aggFilterRef) (heap : TermsHeap) :
    c.apply a heap
      = (match a.terms with
          | none =>
            ({ a with terms := some heap.length }, heap ++ [GoMap.set c.field c.value []])
          | some addr =>
            (a, heap.set addr (GoMap.set c.field c.value ((heap[addr]?).getD [])))) := by
  cases c <;> rfl

theorem termsChain_shared (calls : List TermsCall) (a : aggFilterRef) (heap : TermsHeap)
    (addr : Nat) (T₀ : GoMap Json) (ha : a.terms = some addr) (hT : heap[addr]? = some T₀) :
    (termsChain calls a heap).1 = a
      ∧ (termsChain calls a heap).2[addr]?
          = some (GoMap.setAll (calls.map (fun c => (c.field, c.value))) T₀) := by
  induction calls generalizing heap T₀ with
  | nil => exact ⟨rfl, hT⟩
  | cons c rest ih =>
    have hlt : addr < heap.length := (List.getElem?_eq_some.1 hT).1
    have happ : c.apply a heap = (a, heap.set addr (GoMap.set c.field c.value T₀)) := by
      rw [TermsCall_apply_eq, ha]
      simp only [hT, Option.getD_some]
    have hget : (heap.set addr (GoMap.set c.field c.value T₀))[addr]?
        = some (GoMap.set c.field c.value T₀) := by
      simp [List.getElem?_set, hlt]
    have := ih (heap.set addr (GoMap.set c.field c.value T₀)) (GoMap.set c.field c.value T₀) hget
    simp only [termsChain, happ]
    exact this

theorem termsChain_fresh (name : String) (c : TermsCall) (calls : List TermsCall)
    (heap : TermsHeap) :
    (filterOf (termsChain (c :: calls) (AggFilterName name) heap)).Result
      = (name, [("terms",
          Json.obj (GoMap.setAll ((c :: calls).map (fun c => (c.field, c.value))) []))]) := by
  have happ : c.apply (AggFilterName name) heap
      = (⟨name, some heap.length⟩, heap ++ [GoMap.set c.field c.value []]) := by
    rw [TermsCall_apply_eq]
    rfl
  have hget : (heap ++ [GoMap.set c.field c.value []])[heap.length]?
      = some (GoMap.set c.field c.value []) := List.getElem?_concat_length _ _
  obtain ⟨h1, h2⟩ := termsChain_shared calls ⟨name, some heap.length⟩
    (heap ++ [GoMap.set c.field c.value []]) heap.length _ rfl hget
  have hchain : termsChain (c :: calls) (AggFilterName name) heap
      = termsChain calls ⟨name, some heap.length⟩ (heap ++ [GoMap.set c.field c.value []]) := by
    simp only [termsChain, happ]
  unfold filterOf
  rw [hchain, aggFilterRef_read_some _ _ heap.length _ (by rw [h1]) h2, h1]
  rfl

theorem assignedTo_mk (vals : List aggFilterRef) (heap : TermsHeap)
    (l : List (Nat × String × Json)) (addr : Nat) :
    (FilterState.mk vals heap l).assignedTo addr
      = (l.filter (fun w => w.1 = addr)).map (fun w => w.2) := rfl

theorem assignedTo_snoc (vals : List aggFilterRef) (heap : TermsHeap)
    (l : List (Nat × String × Json)) (n : Nat) (f : String) (v : Json) (addr : Nat) :
    (FilterState.mk vals heap (l ++ [(n, f, v)])).assignedTo addr
      = (l.filter (fun w => w.1 = addr)).map (fun w => w.2)
          ++ (if n = addr then [(f, v)] else []) := by
  rw [assignedTo_mk, List.filter_append, List.map_append]
  by_cases h : n = addr
  · simp [h, List.filter_cons]
  · simp [h, List.filter_cons]

theorem FilterState_consistent_terms (s : FilterState) (a : aggFilterRef) (call : TermsCall)
    (ha : a ∈ s.values) (h : s.consistent) :
    FilterState.consistent
      { values := s.values ++ [(call.apply a s.heap).1]
        heap := (call.apply a s.heap).2
        assigned :=
          match (call.apply a s.heap).1.terms with
          | none => s.assigned
          | some addr => s.assigned ++ [(addr, call.field, call.value)] } := by
  obtain ⟨vals, heap, log⟩ := s
  obtain ⟨hv, hl, hh, hne⟩ := h
  simp only at ha hv hl hh hne
  simp only [assignedTo_mk] at hh hne
  cases hterms : a.terms with
  | none =>
    have happ : call.apply a heap
        = (⟨a.name, some heap.length⟩, heap ++ [GoMap.set call.field call.value []]) := by
      rw [TermsCall_apply_eq, hterms]
    simp only [happ]
    have hold : log.filter (fun w => w.1 = heap.length) = [] := by
      rw [List.filter_eq_nil_iff]
      intro w hw
      have := hl w hw
      simp only [decide_eq_true_eq]
      omega
    refine ⟨?_, ?_, ?_, ?_⟩
    · intro g hg addr hga
      simp only [List.length_append, List.length_singleton]
      rcases List.mem_append.1 hg with hg | hg
      · have := hv g hg addr hga
        omega
      · rw [List.mem_singleton.1 hg] at hga
        simp only [Option.some.injEq] at hga
        omega
    · intro w hw
      simp only [List.length_append, List.length_singleton]
      rcases List.mem_append.1 hw with hw | hw
      · have := hl w hw
        omega
      · rw [List.mem_singleton.1 hw]
        simp
    · intro addr haddr
      simp only [List.length_append, List.length_singleton] at haddr
      rw [assignedTo_snoc]
      by_cases he : heap.length = addr
      · subst he
        rw [if_pos rfl, hold, List.getElem?_concat_length]
        rfl
      · have hlt : addr < heap.length := by omega
        rw [if_neg he, List.append_nil, List.getElem?_append_left hlt]
        exact hh addr hlt
    · intro addr haddr
      simp only [List.length_append, List.length_singleton] at haddr
      rw [assignedTo_snoc]
      by_cases he : heap.length = addr
      · rw [if_pos he]
        simp
      · have hlt : addr < heap.length := by omega
        rw [if_neg he, List.append_nil]
        exact hne addr hlt
  | some a₀ =>
    have hlt₀ : a₀ < heap.length := hv a ha a₀ hterms
    have hT := hh a₀ hlt₀
    have happ : call.apply a heap
        = (a, heap.set a₀ (GoMap.set call.field call.value
            (GoMap.setAll ((log.filter (fun w => w.1 = a₀)).map (fun w => w.2)) []))) := by
      rw [TermsCall_apply_eq, hterms]
      simp only [hT, Option.getD_some]
    simp only [happ, hterms]
    refine ⟨?_, ?_, ?_, ?_⟩
    · intro g hg addr hga
      simp only [List.length_set]
      rcases List.mem_append.1 hg with hg | hg
      · exact hv g hg addr hga
      · rw [List.mem_singleton.1 hg] at hga
        exact hv a ha addr hga
    · intro w hw
      simp only [List.length_set]
      rcases List.mem_append.1 hw with hw | hw
      · exact hl w hw
      · rw [List.mem_singleton.1 hw]
        exact hlt₀
    · intro addr haddr
      simp only [List.length_set] at haddr
      rw [assignedTo_snoc]
      by_cases he : a₀ = addr
      · subst he
        rw [if_pos rfl, GoMap.setAll_append]
        simp [List.getElem?_set, hlt₀, GoMap.setAll]
      · rw [if_neg he, List.append_nil, List.getElem?_set_ne he]
        exact hh addr haddr
    · intro addr haddr
      simp only [List.length_set] at haddr
      rw [assignedTo_snoc]
      by_cases he : a₀ = addr
      · rw [if_pos he]
        simp
      · rw [if_neg he, List.append_nil]
        exact hne addr haddr

theorem FilterState_consistent_step (s : FilterState) (c : FilterCall) (h : s.consistent) :
    (s.step c).consistent := by
  cases c with
  | create name =>
    obtain ⟨hv, hl, hh, hne⟩ := h
    refine ⟨?_, hl, hh, hne⟩
    intro g hg addr hga
    rcases List.mem_append.1 hg with hg | hg
    · exact hv g hg addr hga
    · rw [List.mem_singleton.1 hg] at hga
      exact absurd hga (by simp [AggFilterName])
  | name target nm =>
    simp only [FilterState.step]
    split
    · exact h
    · rename_i a hget
      obtain ⟨hv, hl, hh, hne⟩ := h
      refine ⟨?_, hl, hh, hne⟩
      intro g hg addr hga
      rcases List.mem_append.1 hg with hg | hg
      · exact hv g hg addr hga
      · rw [List.mem_singleton.1 hg] at hga
        exact hv a (List.getElem?_mem hget) addr hga
  | terms target call =>
    simp only [FilterState.step]
    split
    · exact h
    · rename_i a hget
      exact FilterState_consistent_terms s a call (List.getElem?_mem hget) h

theorem foldl_step_consistent (calls : List FilterCall) (s : FilterState) (h : s.consistent) :
    (calls.foldl FilterState.step s).consistent := by
  induction calls generalizing s with
  | nil => exact h
  | cons c rest ih => exact ih _ (FilterState_consistent_step s c h)

theorem runFilterCalls_consistent (calls : List FilterCall) :
    (runFilterCalls calls).consistent := by
  apply foldl_step_consistent
  refine ⟨?_, ?_, ?_, ?_⟩ <;> simp

/-- C3: in every program of `AggFilterName`, `Name`, `Terms` and `TermsArray`
calls, a filter value without terms has the result `(name, {})`, and a filter
value with terms has the result `(name, {"terms": T})`, where `T` is the map of
the value: it has received at least one assignment, it has one key per field
that a `Terms` / `TermsArray` call has assigned into it, through this value or
through any copy that shares the map, and it maps a field to the value of the
last such call for the field. In particular the result of a chain of such calls
on `AggFilterName(name)` has one key per field passed in the chain, with the
value of the last call for the field; a `Terms` call stores the slice of its
values (nil without values, which is written `null`); and the filter
`AggFilterName("name").Terms("status", "open", "closed")` is written inside a
filters aggregation as `"name": {"terms": {"status": ["open","closed"]}}`. -/
theorem aggFilter_result_terms (name : String) :
    (∀ heap : TermsHeap, ((AggFilterName name).read heap).Result = (name, []))
      ∧ (∀ (calls : List FilterCall) (g : aggFilterRef), g ∈ (runFilterCalls calls).values →
          (g.terms = none → (g.read (runFilterCalls calls).heap).Result = (g.name, []))
          ∧ (∀ addr, g.terms = some addr →
              ∃ T : GoMap Json,
                (g.read (runFilterCalls calls).heap).Result = (g.name, [("terms", Json.obj T)])
                  ∧ (runFilterCalls calls).assignedTo addr ≠ []
                  ∧ (∀ (pre post : List (String × Json)) (last : String × Json),
                      (runFilterCalls calls).assignedTo addr = pre ++ last :: post →
                      (∀ w ∈ post, w.1 ≠ last.1) → T.get last.1 = some last.2)
                  ∧ (∀ k, k ∈ T.keys ↔ ∃ w ∈ (runFilterCalls calls).assignedTo addr, w.1 = k)
                  ∧ T.keys.Nodup))
      ∧ (∀ (c : TermsCall) (calls : List TermsCall) (heap : TermsHeap),
          ∃ T : GoMap Json,
            (filterOf (termsChain (c :: calls) (AggFilterName name) heap)).Result
                = (name, [("terms", Json.obj T)])
              ∧ (∀ (pre post : List TermsCall) (last : TermsCall),
                  c :: calls = pre ++ last :: post → (∀ g ∈ post, g.field ≠ last.field) →
                  T.get last.field = some last.value)
              ∧ (∀ k, k ∈ T.keys ↔ ∃ c' ∈ c :: calls, c'.field = k)
              ∧ T.keys.Nodup)
      ∧ (∀ (field : String) (values : List Json) (arr : Json),
          (TermsCall.terms field (some values)).value = Json.arr values
            ∧ (TermsCall.terms field none).value = Json.null
            ∧ (TermsCall.termsArray field arr).value = arr)
      ∧ (∀ (sub : agg) (encoded : Json) (heap : TermsHeap), sub.MarshalJSON = .ok encoded →
          (agg.zero.Filter (some sub)
              [some (filterOf ((AggFilterName "name").Terms "status"
                (some [Json.str "open", Json.str "closed"]) heap))]).MarshalJSON
            = .ok (Json.obj [("aggs", Json.obj [(sub.name, encoded)]),
                  ("filters", Json.obj [("filters", Json.obj [("name",
                    Json.obj [("terms", Json.obj [("status",
                      Json.arr [Json.str "open", Json.str "closed"])])])])])])) := by
  refine ⟨fun heap => rfl, ?_, ?_, fun field values arr => ⟨rfl, rfl, rfl⟩, ?_⟩
  · intro calls g hg
    obtain ⟨hv, _, hh, hne⟩ := runFilterCalls_consistent calls
    refine ⟨fun hnone => aggFilterRef_read_none g _ hnone, ?_⟩
    intro addr haddr
    have hlt := hv g hg addr haddr
    refine ⟨GoMap.setAll ((runFilterCalls calls).assignedTo addr) [],
      aggFilterRef_read_some g _ addr _ haddr (hh addr hlt), hne addr hlt, ?_, ?_, ?_⟩
    · intro pre post last hsplit hpost
      rw [hsplit]
      exact GoMap.setAll_get_last _ _ last [] hpost
    · intro k
      rw [GoMap.setAll_mem_keys]
      constructor
      · rintro (h | h)
        · exact h
        · simp [GoMap.keys] at h
      · intro h
        exact Or.inl h
    · exact GoMap.nodup_keys _ (GoMap.setAll_ascending _ _ List.Pairwise.nil)
  · intro c calls heap
    refine ⟨GoMap.setAll ((c :: calls).map (fun c => (c.field, c.value))) [],
      termsChain_fresh name c calls heap, ?_, ?_, ?_⟩
    · intro pre post last hsplit hpost
      rw [hsplit, List.map_append, List.map_cons]
      exact GoMap.setAll_get_last _ _ (last.field, last.value) []
        (by
          intro g hg
          obtain ⟨g', hg', rfl⟩ := List.mem_map.1 hg
          exact hpost g' hg')
    · intro k
      rw [GoMap.setAll_mem_keys]
      constructor
      · rintro (⟨kv, hkv, rfl⟩ | h)
        · obtain ⟨c', hc', rfl⟩ := List.mem_map.1 hkv
          exact ⟨c', hc', rfl⟩
        · simp [GoMap.keys] at h
      · rintro ⟨c', hc', rfl⟩
        exact Or.inl ⟨_, List.mem_map_of_mem _ hc', rfl⟩
    · exact GoMap.nodup_keys _ (GoMap.setAll_ascending _ _ List.Pairwise.nil)
  · intro sub encoded heap hsub
    have hf : filterOf ((AggFilterName "name").Terms "status"
        (some [Json.str "open", Json.str "closed"]) heap)
        = ⟨"name", some [("status", Json.arr [Json.str "open", Json.str "closed"])]⟩ := by
      unfold filterOf aggFilterRef.Terms AggFilterName aggFilterRef.read
      simp
      rfl
    rw [hf]
    exact agg_marshal_filters_ok ""
      [⟨"name", some [("status", Json.arr [Json.str "open", Json.str "closed"])]⟩]
      sub none none none encoded hsub
      (by
        intro b hb
        rw [List.mem_singleton.1 hb]
        rfl)

/-- C3, at the program `a := AggFilterName("f")`, `b := a.Terms("status", "open")`,
`c := b.TermsArray("status", ["closed"])`: the result of `b` holds the value
that the later call on its copy stored. -/
theorem aggFilter_result_terms_witness :
    (⟨"f", some 0⟩ : aggFilterRef) ∈ (runFilterCalls [FilterCall.create "f",
        FilterCall.terms 0 (TermsCall.terms "status" (some [Json.str "open"])),
        FilterCall.terms 1 (TermsCall.termsArray "status" (Json.arr [Json.str "closed"]))]).values
      ∧ ∃ T : GoMap Json,
          ((⟨"f", some 0⟩ : aggFilterRef).read (runFilterCalls [FilterCall.create "f",
              FilterCall.terms 0 (TermsCall.terms "status" (some [Json.str "open"])),
              FilterCall.terms 1
                (TermsCall.termsArray "status" (Json.arr [Json.str "closed"]))]).heap).Result
            = ("f", [("terms", Json.obj T)])
          ∧ T.get "status" = some (Json.arr [Json.str "closed"]) := by
  have hmem : (⟨"f", some 0⟩ : aggFilterRef) ∈ (runFilterCalls [FilterCall.create "f",
      FilterCall.terms 0 (TermsCall.terms "status" (some [Json.str "open"])),
      FilterCall.terms 1 (TermsCall.termsArray "status" (Json.arr [Json.str "closed"]))]).values :=
    List.mem_cons_of_mem _ (List.mem_cons_self _ _)
  refine ⟨hmem, ?_⟩
  obtain ⟨T, h1, _, h2, _⟩ := ((aggFilter_result_terms "f").2.1 _ _ hmem).2 0 rfl
  exact ⟨T, h1, h2 [("status", Json.arr [Json.str "open"])] []
    ("status", Json.arr [Json.str "closed"]) rfl (by simp)⟩

/-- C4: the `filters.filters` mapping of a serialized filters aggregation has
exactly one entry per distinct filter name, the entry of a name being the result
of the last filter of the list with that name; and reordering filters with
pairwise distinct names leaves the serialization unchanged. -/
theorem agg_filters_last_name_wins (name : String) (buckets : List aggFilter) (sub : agg)
    (dh : Option aggDateHistogram) (d : Option aggDistinct) (raw : Option Json) :
    ∃ m : GoMap Json,
      marshalBuckets (buckets.map some) [] = .ok m
        ∧ (agg.mk name (some (.mk (buckets.map some) (some sub))) dh d raw).MarshalJSON
            = (match sub.MarshalJSON with
                | .error fault => .error (marshalerError fault)
                | .ok encoded =>
                  if (Json.obj m).encodable then
                    .ok (Json.obj [("aggs", Json.obj [(sub.name, encoded)]),
                      ("filters", Json.obj [("filters", Json.obj m)])])
                  else .error jsonUnsupported)
        ∧ m.keys.Nodup
        ∧ (∀ k, k ∈ m.keys ↔ ∃ f ∈ buckets, f.name = k)
        ∧ (∀ (pre post : List aggFilter) (f : aggFilter),
            buckets = pre ++ f :: post → (∀ g ∈ post, g.name ≠ f.name) →
            m.get f.name = some (Json.obj f.Result.2))
        ∧ (∀ buckets' : List aggFilter,
            buckets'.Perm buckets → (buckets.map (fun f => f.name)).Nodup →
            (agg.mk name (some (.mk (buckets'.map some) (some sub))) dh d raw).MarshalJSON
              = (agg.mk name (some (.mk (buckets.map some) (some sub))) dh d raw).MarshalJSON) := by
  refine ⟨bucketsMap buckets [], marshalBuckets_some _ _, agg_marshal_filters _ _ _ _ _ _,
    ?_, ?_, ?_, ?_⟩
  · rw [bucketsMap_eq]
    exact GoMap.nodup_keys _ (GoMap.setAll_ascending _ _ List.Pairwise.nil)
  · intro k
    rw [bucketsMap_eq, GoMap.setAll_mem_keys]
    constructor
    · rintro (⟨kv, hkv, rfl⟩ | h)
      · obtain ⟨f, hf, rfl⟩ := List.mem_map.1 hkv
        exact ⟨f, hf, rfl⟩
      · simp [GoMap.keys] at h
    · rintro ⟨f, hf, rfl⟩
      exact Or.inl ⟨_, List.mem_map_of_mem _ hf, rfl⟩
  · intro pre post f hsplit hpost
    rw [bucketsMap_eq, hsplit, List.map_append, List.map_cons]
    exact GoMap.setAll_get_last _ _ (f.name, Json.obj f.Result.2) []
      (by
        intro g hg
        obtain ⟨g', hg', rfl⟩ := List.mem_map.1 hg
        exact hpost g' hg')
  · intro buckets' hperm hnodup
    rw [agg_marshal_filters, agg_marshal_filters, bucketsMap_eq, bucketsMap_eq]
    have hp := hperm.map (fun f : aggFilter => (f.name, Json.obj f.Result.2))
    have hn : ((buckets'.map (fun f : aggFilter => (f.name, Json.obj f.Result.2))).map
        Prod.fst).Nodup := by
      rw [List.map_map]
      exact ((hperm.map _).nodup_iff).2 hnodup
    rw [GoMap.setAll_perm _ _ hp hn]

/-- C4, at two filters named `a` (the second one wins) and at the two orders of
the filters `b`, `a`. -/
theorem agg_filters_last_name_wins_witness :
    (∃ m : GoMap Json,
      marshalBuckets ([filterOf (AggFilterName "a", []),
          filterOf ((AggFilterName "a").Terms "x" (some [Json.num 1]) [])].map some) []
          = .ok m
        ∧ m.get "a" = some (Json.obj [("terms", Json.obj [("x", Json.arr [Json.num 1])])]))
      ∧ (agg.mk "n" (some (.mk ([filterOf (AggFilterName "a", []),
            filterOf (AggFilterName "b", [])].map some)
            (some agg.zero))) none none none).MarshalJSON
          = (agg.mk "n" (some (.mk ([filterOf (AggFilterName "b", []),
              filterOf (AggFilterName "a", [])].map some)
              (some agg.zero))) none none none).MarshalJSON := by
  constructor
  · obtain ⟨m, h1, _, _, _, h5, _⟩ := agg_filters_last_name_wins "n"
      [filterOf (AggFilterName "a", []),
        filterOf ((AggFilterName "a").Terms "x" (some [Json.num 1]) [])] agg.zero none none none
    exact ⟨m, h1, h5 [filterOf (AggFilterName "a", [])] []
      (filterOf ((AggFilterName "a").Terms "x" (some [Json.num 1]) [])) rfl (by simp)⟩
  · obtain ⟨_, _, _, _, _, _, h6⟩ := agg_filters_last_name_wins "n"
      [filterOf (AggFilterName "b", []), filterOf (AggFilterName "a", [])]
      agg.zero none none none
    exact h6 [filterOf (AggFilterName "a", []), filterOf (AggFilterName "b", [])]
      (List.Perm.swap _ _ _) (by decide)

/-- C5, the claim fails: the node `Filter(nil)` is not serialized, the call panics. -/
theorem agg_marshal_nil_subagg_panics :
    (agg.zero.Filter none []).MarshalJSON = .error nilDereference
      ∧ ¬ ∃ j, (agg.zero.Filter none []).MarshalJSON = .ok j := by
  refine ⟨rfl, ?_⟩
  rintro ⟨j, hj⟩
  have h : (agg.zero.Filter none []).MarshalJSON = .error nilDereference := rfl
  rw [h] at hj
  exact Except.noConfusion hj

/-- C5, amended: for every node built with `Filter(nil, filters...)`, whatever
the node held before and whatever the filters are, `MarshalJSON` returns neither
a document nor an error value: the call panics with a nil dereference. -/
theorem agg_marshal_nil_subagg (a : agg) (filters : List (Option aggFilter)) :
    (a.Filter none filters).MarshalJSON = .error nilDereference
      ∧ (∀ j, (a.Filter none filters).MarshalJSON ≠ .ok j)
      ∧ (∀ msg, (a.Filter none filters).MarshalJSON ≠ .error (Fault.error msg)) := by
  have h : (a.Filter none filters).MarshalJSON = .error nilDereference := by
    simp only [agg.Filter, agg.MarshalJSON, aggFilters.marshal]
    cases hb : marshalBuckets filters [] with
    | error e => rw [marshalBuckets_error _ _ e hb]
    | ok m => rfl
  refine ⟨h, ?_, ?_⟩
  · intro j hj
    rw [h] at hj
    exact Except.noConfusion hj
  · intro msg hm
    rw [h] at hm
    simp [nilDereference] at hm

/-- C5 amended, at a node named `by_status` that also has a date histogram and
is given one named filter. -/
theorem agg_marshal_nil_subagg_witness :
    ((((agg.zero.Name "by_status").DateHistogram "ts" "day" "" "" "").Filter none
        [some (filterOf (AggFilterName "open", []))]).MarshalJSON)
      = .error nilDereference :=
  (agg_marshal_nil_subagg ((agg.zero.Name "by_status").DateHistogram "ts" "day" "" "" "")
    [some (filterOf (AggFilterName "open", []))]).1

/-! ## Claims on the query builder -/

/-- The clause values that a list of filters contributes: the results of the
non-nil ones, in order. -/
theorem foldl_must (filters : List (Option Filter)) (e : es) :
    filters.foldl
        (fun e filter =>
          match filter with
          | none => e
          | some f => { e with cond := { e.cond with must := e.cond.must ++ f.Result } })
        e
      = { e with cond := { e.cond with
            must := e.cond.must ++ ((filters.filterMap id).map Filter.Result).flatten } } := by
  induction filters generalizing e with
  | nil => simp
  | cons f rest ih =>
    cases f with
    | none => simpa using ih e
    | some f => simp [ih, List.append_assoc]

theorem foldl_should (filters : List (Option Filter)) (e : es) :
    filters.foldl
        (fun e filter =>
          match filter with
          | none => e
          | some f => { e with cond := { e.cond with should := e.cond.should ++ f.Result } })
        e
      = { e with cond := { e.cond with
            should := e.cond.should ++ ((filters.filterMap id).map Filter.Result).flatten } } := by
  induction filters generalizing e with
  | nil => simp
  | cons f rest ih =>
    cases f with
    | none => simpa using ih e
    | some f => simp [ih, List.append_assoc]

theorem foldl_not (filters : List (Option Filter)) (e : es) :
    filters.foldl
        (fun e filter =>
          match filter with
          | none => e
          | some f => { e with cond := { e.cond with not := e.cond.not ++ f.Result } })
        e
      = { e with cond := { e.cond with
            not := e.cond.not ++ ((filters.filterMap id).map Filter.Result).flatten } } := by
  induction filters generalizing e with
  | nil => simp
  | cons f rest ih =>
    cases f with
    | none => simpa using ih e
    | some f => simp [ih, List.append_assoc]

theorem aggLoop_some (aggs : List agg) (e : es) :
    aggLoop (aggs.map some) e
      = .ok { e with agg := GoMap.setAll (aggs.map agg.Result) e.agg } := by
  induction aggs generalizing e with
  | nil => rfl
  | cons a rest ih => simp [aggLoop, ih, GoMap.setAll]

theorem aggLoop_frame (aggs : List (Option agg)) (e r : es) (h : aggLoop aggs e = .ok r) :
    r = { e with agg := r.agg } := by
  induction aggs generalizing e with
  | nil =>
    simp only [aggLoop, Except.ok.injEq] at h
    rw [← h]
  | cons a rest ih =>
    cases a with
    | none => simp [aggLoop] at h
    | some a =>
      have := ih _ (by simpa [aggLoop] using h)
      rw [this]

/-- C6: every mutator returns the receiver with only its target field replaced.
`Where`, `Or`, `Not` replace only `cond.must`, `cond.should`, `cond.not`;
`OrderBy` only `sorts`; `Size` only `size`; `Start` only `from`; `Limit` and
`Limit64` only `from` and `size`; `Fields` only `fields`; `IndexName` only
`indexName`; `AdjustPurePegative` only `adjustPureNegative`; `Agg` only `isAgg`
and the aggregation map. The receiver `q` is a value that no method writes to:
each method works on the deep copy `q.Clone` or on its own copy of the struct. -/
theorem es_mutators_frame (q : es) :
    (∀ fs, q.Where fs = { q with cond := { q.cond with must := (q.Where fs).cond.must } })
      ∧ (∀ fs, q.Or fs = { q with cond := { q.cond with should := (q.Or fs).cond.should } })
      ∧ (∀ fs, q.Not fs = { q with cond := { q.cond with not := (q.Not fs).cond.not } })
      ∧ (∀ field isDesc,
          q.OrderBy field isDesc = { q with sorts := (q.OrderBy field isDesc).sorts })
      ∧ (∀ u, q.Size u = { q with size := u })
      ∧ (∀ u, q.Start u = { q with from_ := u })
      ∧ (∀ u v, q.Limit u v = { q with from_ := u, size := v })
      ∧ (∀ u v, q.Limit64 u v = { q with from_ := uint64OfInt64 u, size := uint64OfInt64 v })
      ∧ (∀ fields, q.Fields fields = { q with fields := fields })
      ∧ (∀ name, q.IndexName name = { q with indexName := name })
      ∧ (∀ v, q.AdjustPurePegative v = { q with adjustPureNegative := v })
      ∧ (∀ aggs r, q.Agg aggs = .ok r → r = { q with isAgg := true, agg := r.agg })
      ∧ (∀ aggs : List agg,
          q.Agg (aggs.map some)
            = .ok { q with isAgg := true, agg := GoMap.setAll (aggs.map agg.Result) q.agg }) := by
  refine ⟨?_, ?_, ?_, ?_, fun _ => rfl, fun _ => rfl, fun _ _ => rfl, fun _ _ => rfl,
    fun _ => rfl, fun _ => rfl, fun _ => rfl, ?_, ?_⟩
  · intro fs
    simp only [es.Where, es.Clone, foldl_must]
  · intro fs
    simp only [es.Or, es.Clone, foldl_should]
  · intro fs
    simp only [es.Not, es.Clone, foldl_not]
  · intro field isDesc
    cases isDesc <;> rfl
  · intro aggs r h
    have := aggLoop_frame aggs _ r h
    rw [this]
    rfl
  · intro aggs
    simp only [es.Agg, es.Clone, aggLoop_some]

/-- C6, at the fresh query `ES()` and one aggregation. -/
theorem es_mutators_frame_witness :
    ∃ r, ES.Agg [some (agg.zero.Name "a")] = .ok r
      ∧ r = { ES with isAgg := true, agg := r.agg } :=
  ⟨_, rfl, (es_mutators_frame ES).2.2.2.2.2.2.2.2.2.2.2.1 [some (agg.zero.Name "a")] _ rfl⟩

/-- C7: `Where`, `Or` and `Not` append, in argument order, the results of the
non-nil filters to `cond.must`, `cond.should` and `cond.not`, skipping nil
filters, and change nothing else; a call whose arguments are all nil returns a
query equal to the receiver. -/
theorem es_where_or_not_append (q : es) (fs : List (Option Filter)) :
    q.Where fs = { q with cond := { q.cond with
        must := q.cond.must ++ ((fs.filterMap id).map Filter.Result).flatten } }
      ∧ q.Or fs = { q with cond := { q.cond with
        should := q.cond.should ++ ((fs.filterMap id).map Filter.Result).flatten } }
      ∧ q.Not fs = { q with cond := { q.cond with
        not := q.cond.not ++ ((fs.filterMap id).map Filter.Result).flatten } }
      ∧ ((∀ f ∈ fs, f = none) → q.Where fs = q ∧ q.Or fs = q ∧ q.Not fs = q) := by
  refine ⟨by simp only [es.Where, es.Clone, foldl_must],
    by simp only [es.Or, es.Clone, foldl_should],
    by simp only [es.Not, es.Clone, foldl_not], ?_⟩
  intro hnil
  have h : fs.filterMap id = [] := by
    rw [List.filterMap_eq_nil_iff]
    intro f hf
    rw [hnil f hf]
    rfl
  simp only [es.Where, es.Or, es.Not, es.Clone, foldl_must, foldl_should, foldl_not, h,
    List.map_nil, List.flatten_nil, List.append_nil, and_self]

/-- C7, at a call with two nil filters. -/
theorem es_where_or_not_append_witness :
    (∀ f ∈ [(none : Option Filter), none], f = none)
      ∧ ES.Where [none, none] = ES ∧ ES.Or [none, none] = ES ∧ ES.Not [none, none] = ES :=
  ⟨by simp, (es_where_or_not_append ES [none, none]).2.2.2 (by simp)⟩

/-! ## The bulk writer `Save` -/

theorem lt_batchCount_iff (b n k : Nat) (hb : 0 < b) : k < batchCount b n ↔ k * b < n := by
  unfold batchCount
  rw [Nat.lt_iff_add_one_le, Nat.le_div_iff_mul_le hb, Nat.add_mul]
  omega

theorem batchCount_le (b n : Nat) (hb : 0 < b) : batchCount b n ≤ n := by
  by_contra h
  have h1 : n < batchCount b n := by omega
  have h2 := (lt_batchCount_iff b n n hb).1 h1
  have h3 : n * 1 ≤ n * b := Nat.mul_le_mul_left n hb
  omega

theorem batchCount_mul_ge (b n : Nat) (hb : 0 < b) : n ≤ batchCount b n * b := by
  by_contra h
  have h1 : batchCount b n * b < n := by omega
  exact absurd ((lt_batchCount_iff b n _ hb).2 h1) (lt_irrefl _)

theorem subBatch_length {α : Type} (b : Nat) (datas : List α) (i : Nat) :
    (subBatch b datas i).length = min b (datas.length - i * b) := by
  simp [subBatch]

theorem subBatch_flatten {α : Type} (b : Nat) (datas : List α) (k : Nat) :
    ((List.range k).map (subBatch b datas)).flatten = datas.take (k * b) := by
  induction k with
  | zero => simp
  | succ k ih =>
    rw [List.range_succ, List.map_append, List.flatten_append, ih, Nat.succ_mul, List.take_add]
    simp [subBatch]

theorem saveBody_length_pos {α : Type} (line : α → String) (items : List α)
    (h : items ≠ []) : (saveBody line items).length ≠ 0 := by
  cases items with
  | nil => exact absurd rfl h
  | cons x rest =>
    have : bulkInsertAction.length = 14 := by decide
    simp only [saveBody, String.length_append, this]
    omega

theorem saveItems_ok {α : Type} (jsonEncode : α → Except String String) (line : α → String)
    (items : List α) (byteBody : String)
    (h : ∀ x ∈ items, jsonEncode x = .ok (line x)) :
    saveItems jsonEncode items byteBody = .ok (byteBody ++ saveBody line items) := by
  induction items generalizing byteBody with
  | nil => simp [saveItems, saveBody]
  | cons x rest ih =>
    simp only [saveItems, h x (List.mem_cons_self _ _)]
    rw [ih _ (fun y hy => h y (List.mem_cons_of_mem _ hy))]
    simp [saveBody, String.append_assoc]

theorem save_items_eq {α : Type} (datas : List α) (b now : Nat) :
    (if now + b > datas.length then slice datas now datas.length
      else slice datas now (now + b)) = (datas.drop now).take b := by
  split_ifs with h
  · rw [slice, List.take_of_length_le (le_refl _), List.take_of_length_le]
    simp
    omega
  · rw [slice, List.drop_take]
    simp

/-- One iteration of the loop of `Save` at a position inside the input. -/
theorem saveLoop_step {α ρ : Type} (B : Backend α ρ) (e : es) (datas : List α)
    (line : α → String) (hb : 0 < B.limits.BulkItemsLimit)
    (henc : ∀ x ∈ datas, B.jsonEncode x = .ok (line x))
    (fuel now : Nat) (calls : List BulkRequest) (hnow : now < datas.length) :
    es.saveLoop B e datas (fuel + 1) now calls
      = match B.Bulk calls
            (e.saveRequest (saveBody line ((datas.drop now).take B.limits.BulkItemsLimit))) with
        | .error err =>
          ⟨calls ++ [e.saveRequest (saveBody line ((datas.drop now).take B.limits.BulkItemsLimit))],
            .returned (some (.client err))⟩
        | .ok res =>
          match B.parseBulkResp res with
          | .error err =>
            ⟨calls ++ [e.saveRequest
                (saveBody line ((datas.drop now).take B.limits.BulkItemsLimit))],
              .returned (some (.response err))⟩
          | .ok _ =>
            es.saveLoop B e datas fuel (now + B.limits.BulkItemsLimit)
              (calls ++ [e.saveRequest
                (saveBody line ((datas.drop now).take B.limits.BulkItemsLimit))]) := by
  have hitems : ((datas.drop now).take B.limits.BulkItemsLimit) ≠ [] := by
    intro h
    have := congrArg List.length h
    simp at this
    omega
  have hmem : ∀ x ∈ (datas.drop now).take B.limits.BulkItemsLimit,
      B.jsonEncode x = .ok (line x) :=
    fun x hx => henc x (List.mem_of_mem_drop (List.mem_of_mem_take hx))
  rw [es.saveLoop]
  simp only [hnow, if_true, save_items_eq datas _ now, saveItems_ok _ line _ _ hmem,
    String.empty_append, saveBody_length_pos line _ hitems, if_false]

theorem saveLoop_done {α ρ : Type} (B : Backend α ρ) (e : es) (datas : List α)
    (fuel now : Nat) (calls : List BulkRequest) (hnow : datas.length ≤ now) :
    es.saveLoop B e datas (fuel + 1) now calls = ⟨calls, .returned none⟩ := by
  rw [es.saveLoop]
  simp [Nat.not_lt.2 hnow]

theorem saveRequests_succ {α : Type} (e : es) (line : α → String) (b : Nat)
    (datas : List α) (k : Nat) :
    e.saveRequests line b datas (k + 1)
      = e.saveRequests line b datas k ++ [e.saveRequest (saveBody line (subBatch b datas k))] := by
  simp [es.saveRequests, List.range_succ]

/-- While the bulk calls succeed, the loop of `Save` submits the sub-batches one
after the other. -/
theorem saveLoop_submits {α ρ : Type} (B : Backend α ρ) (e : es) (datas : List α)
    (line : α → String) (hb : 0 < B.limits.BulkItemsLimit)
    (henc : ∀ x ∈ datas, B.jsonEncode x = .ok (line x)) (k : Nat)
    (hk : k ≤ batchCount B.limits.BulkItemsLimit datas.length)
    (hok : ∀ i < k, ∃ res,
      B.Bulk (e.saveRequests line B.limits.BulkItemsLimit datas i)
          (e.saveRequest (saveBody line (subBatch B.limits.BulkItemsLimit datas i))) = .ok res
        ∧ B.parseBulkResp res = .ok ())
    (fuel : Nat) :
    es.saveLoop B e datas (fuel + k) 0 []
      = es.saveLoop B e datas fuel (k * B.limits.BulkItemsLimit)
          (e.saveRequests line B.limits.BulkItemsLimit datas k) := by
  induction k generalizing fuel with
  | zero => simp [es.saveRequests]
  | succ k ih =>
    have hlt : k * B.limits.BulkItemsLimit < datas.length :=
      (lt_batchCount_iff _ _ _ hb).1 (by omega)
    have h1 := ih (by omega) (fun i hi => hok i (by omega)) (fuel + 1)
    rw [show fuel + (k + 1) = fuel + 1 + k by omega, h1,
      saveLoop_step B e datas line hb henc fuel _ _ hlt]
    obtain ⟨res, hres, hparse⟩ := hok k (by omega)
    have hsub : (datas.drop (k * B.limits.BulkItemsLimit)).take B.limits.BulkItemsLimit
        = subBatch B.limits.BulkItemsLimit datas k := rfl
    rw [hsub, hres]
    simp only [hparse]
    rw [saveRequests_succ, Nat.succ_mul]

theorem saveItems_error {α : Type} (jsonEncode : α → Except String String)
    (items : List α) (byteBody : String) (err : BulkError)
    (h : saveItems jsonEncode items byteBody = .error err) : ∃ msg, err = .encode msg := by
  induction items generalizing byteBody with
  | nil => simp [saveItems] at h
  | cons x rest ih =>
    rw [saveItems] at h
    cases hx : jsonEncode x with
    | error msg =>
      rw [hx] at h
      simp only [Except.error.injEq] at h
      exact ⟨msg, h.symm⟩
    | ok l =>
      rw [hx] at h
      exact ih _ h

theorem saveLoop_not_too_large {α ρ : Type} (B : Backend α ρ) (e : es) (datas : List α)
    (fuel now : Nat) (calls : List BulkRequest) (op : String) (limit : Nat) :
    (es.saveLoop B e datas fuel now calls).ending
      ≠ .returned (some (.batchTooLarge op limit)) := by
  induction fuel generalizing now calls with
  | zero => simp [es.saveLoop]
  | succ fuel ih =>
    rw [es.saveLoop]
    simp only [save_items_eq]
    split_ifs with h1
    · cases hs : saveItems B.jsonEncode
          ((datas.drop now).take B.limits.BulkItemsLimit) "" with
      | error err =>
        obtain ⟨msg, rfl⟩ := saveItems_error _ _ _ _ hs
        simp
      | ok body =>
        simp only
        split_ifs with h2
        · exact ih _ _
        · cases hbulk : B.Bulk calls (e.saveRequest body) with
          | error err => simp
          | ok res =>
            simp only
            cases hp : B.parseBulkResp res with
            | error err => simp
            | ok u => exact ih _ _
    · simp

/-- With a positive `BulkItemsLimit` the loop of `Save` ends: the bound on the
iterations is never what stops it. -/
theorem saveLoop_returns {α ρ : Type} (B : Backend α ρ) (e : es) (datas : List α)
    (hb : 0 < B.limits.BulkItemsLimit) (fuel now : Nat) (calls : List BulkRequest)
    (hfuel : datas.length - now < fuel) :
    (es.saveLoop B e datas fuel now calls).ending ≠ .diverges := by
  induction fuel generalizing now calls with
  | zero => omega
  | succ fuel ih =>
    rw [es.saveLoop]
    simp only [save_items_eq]
    split_ifs with h1
    · cases hs : saveItems B.jsonEncode
          ((datas.drop now).take B.limits.BulkItemsLimit) "" with
      | error err => simp
      | ok body =>
        simp only
        split_ifs with h2
        · exact ih _ _ (by omega)
        · cases hbulk : B.Bulk calls (e.saveRequest body) with
          | error err => simp
          | ok res =>
            simp only
            cases hp : B.parseBulkResp res with
            | error err => simp
            | ok u => exact ih _ _ (by omega)
    · simp

theorem Save_returns {α ρ : Type} (B : Backend α ρ) (e : es) (datas : List α)
    (hb : 0 < B.limits.BulkItemsLimit) : (e.Save B datas).ending ≠ .diverges := by
  rw [es.Save]
  split_ifs with h
  · simp
  · exact saveLoop_returns B e datas hb _ _ _ (by omega)

/-- An accepted input whose items encode and whose bulk calls all succeed: `Save`
submits every sub-batch, in order, and returns `nil`. -/
theorem Save_all_ok {α ρ : Type} (B : Backend α ρ) (e : es) (datas : List α)
    (line : α → String) (hb : 0 < B.limits.BulkItemsLimit)
    (hacc : datas.length ≤ B.limits.MaxBulkItemsLimit)
    (henc : ∀ x ∈ datas, B.jsonEncode x = .ok (line x))
    (hok : ∀ i < batchCount B.limits.BulkItemsLimit datas.length, ∃ res,
      B.Bulk (e.saveRequests line B.limits.BulkItemsLimit datas i)
          (e.saveRequest (saveBody line (subBatch B.limits.BulkItemsLimit datas i))) = .ok res
        ∧ B.parseBulkResp res = .ok ()) :
    e.Save B datas
      = ⟨e.saveRequests line B.limits.BulkItemsLimit datas
          (batchCount B.limits.BulkItemsLimit datas.length), .returned none⟩ := by
  have hc := batchCount_le B.limits.BulkItemsLimit datas.length hb
  have hge := batchCount_mul_ge B.limits.BulkItemsLimit datas.length hb
  rw [es.Save, if_neg (Nat.not_lt.2 hacc)]
  have hfuel : datas.length + 1
      = (datas.length - batchCount B.limits.BulkItemsLimit datas.length + 1)
        + batchCount B.limits.BulkItemsLimit datas.length := by omega
  rw [hfuel, saveLoop_submits B e datas line hb henc _ (le_refl _) hok,
    saveLoop_done B e datas _ _ _ hge]

theorem foldl_append_join (l : List String) (acc : String) :
    l.foldl (fun r s => r ++ s) acc = acc ++ String.join l := by
  induction l generalizing acc with
  | nil => simp [String.join]
  | cons s rest ih =>
    rw [List.foldl_cons, ih]
    have hjoin : String.join (s :: rest) = s ++ String.join rest := by
      show List.foldl (fun r s => r ++ s) "" (s :: rest) = s ++ String.join rest
      rw [List.foldl_cons, ih ("" ++ s), String.empty_append]
    rw [hjoin, String.append_assoc]

theorem saveBody_eq_join {α : Type} (line : α → String) (items : List α) :
    saveBody line items
      = String.join (items.map
          (fun item => "\x7b\"index\": \x7b\x7d\x7d\n" ++ (line item ++ "\n"))) := by
  induction items with
  | nil => rfl
  | cons item rest ih =>
    have hact : bulkInsertAction = "\x7b\"index\": \x7b\x7d\x7d\n" := by decide
    rw [saveBody, ih, hact, List.map_cons]
    show _ = List.foldl (fun r s => r ++ s) "" (_ :: _)
    rw [List.foldl_cons, foldl_append_join, String.empty_append]

/-- C8: for an accepted input of `n` items that all encode, with a ceiling
`b = BulkItemsLimit > 0` and every bulk call succeeding, `Save` issues exactly
`ceil(n/b)` bulk calls and returns `nil`. The `i`-th call carries the `i`-th run
of `b` consecutive items: its body is, for each item of the run in order, the
action line `{"index": {}}` followed by the payload line of the item, and it is
sent to the index of the query with a refresh and a timeout of 20 seconds. Every
batch but the last has `b` items, the last has `n - b * (ceil(n/b) - 1)`, the
batches concatenate to the input, there is no call for an empty input, and
`b = 1000`, `n = 2501` gives three calls of 1000, 1000 and 501 items. -/
theorem save_partitions_into_batches {α ρ : Type} (B : Backend α ρ) (e : es)
    (datas : List α) (line : α → String) (call : Nat → BulkRequest)
    (hb : 0 < B.limits.BulkItemsLimit)
    (hacc : datas.length ≤ B.limits.MaxBulkItemsLimit)
    (henc : ∀ x ∈ datas, B.jsonEncode x = .ok (line x))
    (hcall : ∀ i, call i
      = { body := String.join (((datas.drop (i * B.limits.BulkItemsLimit)).take
              B.limits.BulkItemsLimit).map
            (fun item => "\x7b\"index\": \x7b\x7d\x7d\n" ++ (line item ++ "\n")))
          index := some e.indexName
          refresh := some "true"
          timeout := some 20 })
    (hok : ∀ i < (datas.length + B.limits.BulkItemsLimit - 1) / B.limits.BulkItemsLimit,
      ∃ res, B.Bulk ((List.range i).map call) (call i) = .ok res
        ∧ B.parseBulkResp res = .ok ()) :
    e.Save B datas
        = ⟨(List.range ((datas.length + B.limits.BulkItemsLimit - 1)
              / B.limits.BulkItemsLimit)).map call, .returned none⟩
      ∧ (e.Save B datas).calls.length
          = (datas.length + B.limits.BulkItemsLimit - 1) / B.limits.BulkItemsLimit
      ∧ (datas.length = 0 → (e.Save B datas).calls = [])
      ∧ (∀ i, i + 1 < (datas.length + B.limits.BulkItemsLimit - 1) / B.limits.BulkItemsLimit →
          ((datas.drop (i * B.limits.BulkItemsLimit)).take B.limits.BulkItemsLimit).length
            = B.limits.BulkItemsLimit)
      ∧ (0 < datas.length →
          ((datas.drop
              (((datas.length + B.limits.BulkItemsLimit - 1) / B.limits.BulkItemsLimit - 1)
                * B.limits.BulkItemsLimit)).take B.limits.BulkItemsLimit).length
            = datas.length - B.limits.BulkItemsLimit
                * ((datas.length + B.limits.BulkItemsLimit - 1) / B.limits.BulkItemsLimit - 1))
      ∧ ((List.range ((datas.length + B.limits.BulkItemsLimit - 1)
              / B.limits.BulkItemsLimit)).map
            (fun i => (datas.drop (i * B.limits.BulkItemsLimit)).take
              B.limits.BulkItemsLimit)).flatten = datas
      ∧ (B.limits.BulkItemsLimit = 1000 → datas.length = 2501 →
          (e.Save B datas).calls.length = 3
            ∧ (List.range 3).map
                (fun i => ((datas.drop (i * B.limits.BulkItemsLimit)).take
                  B.limits.BulkItemsLimit).length)
              = [1000, 1000, 501]) := by
  have hreq : ∀ i, e.saveRequest (saveBody line (subBatch B.limits.BulkItemsLimit datas i))
      = call i := by
    intro i
    rw [hcall, saveBody_eq_join]
    rfl
  have hreqs : ∀ k, e.saveRequests line B.limits.BulkItemsLimit datas k
      = (List.range k).map call := by
    intro k
    unfold es.saveRequests
    exact List.map_congr_left (fun i _ => hreq i)
  have hcount : (datas.length + B.limits.BulkItemsLimit - 1) / B.limits.BulkItemsLimit
      = batchCount B.limits.BulkItemsLimit datas.length := rfl
  rw [hcount] at hok ⊢
  have hsave : e.Save B datas
      = ⟨(List.range (batchCount B.limits.BulkItemsLimit datas.length)).map call,
          .returned none⟩ := by
    rw [← hreqs]
    exact Save_all_ok B e datas line hb hacc henc
      (fun i hi => by
        obtain ⟨res, h1, h2⟩ := hok i hi
        exact ⟨res, by rw [hreqs, hreq]; exact h1, h2⟩)
  have hlen : (e.Save B datas).calls.length
      = batchCount B.limits.BulkItemsLimit datas.length := by
    rw [hsave]
    simp
  have hge := batchCount_mul_ge B.limits.BulkItemsLimit datas.length hb
  have hsub : ∀ i, (datas.drop (i * B.limits.BulkItemsLimit)).take B.limits.BulkItemsLimit
      = subBatch B.limits.BulkItemsLimit datas i := fun _ => rfl
  refine ⟨hsave, hlen, ?_, ?_, ?_, ?_, ?_⟩
  · intro h0
    have hc := batchCount_le B.limits.BulkItemsLimit datas.length hb
    have : batchCount B.limits.BulkItemsLimit datas.length = 0 := by omega
    rw [hsave, this]
    rfl
  · intro i hi
    have h1 := (lt_batchCount_iff _ _ _ hb).1 hi
    rw [hsub, subBatch_length]
    rw [Nat.succ_mul] at h1
    omega
  · intro hpos
    have hcpos : 0 < batchCount B.limits.BulkItemsLimit datas.length := by
      rw [lt_batchCount_iff _ _ _ hb]
      simpa using hpos
    have h1 := (lt_batchCount_iff B.limits.BulkItemsLimit datas.length
      (batchCount B.limits.BulkItemsLimit datas.length - 1) hb).1
      (by omega)
    have h2 : (batchCount B.limits.BulkItemsLimit datas.length - 1) * B.limits.BulkItemsLimit
        + B.limits.BulkItemsLimit
          = batchCount B.limits.BulkItemsLimit datas.length * B.limits.BulkItemsLimit := by
      rw [← Nat.succ_mul]
      congr 1
      omega
    rw [hsub, subBatch_length, Nat.mul_comm B.limits.BulkItemsLimit]
    omega
  · have : (fun i => (datas.drop (i * B.limits.BulkItemsLimit)).take B.limits.BulkItemsLimit)
        = subBatch B.limits.BulkItemsLimit datas := rfl
    rw [this, subBatch_flatten, List.take_of_length_le hge]
  · intro h1000 h2501
    have hc : batchCount B.limits.BulkItemsLimit datas.length = 3 := by
      rw [h1000, h2501]
      decide
    refine ⟨by rw [hlen, hc], ?_⟩
    simp [List.range_succ, h1000, h2501]

/-- C8, at the sample backend (ceiling 2) and five items: three calls carrying
2, 2 and 1 items. -/
theorem save_partitions_into_batches_witness :
    es.Save sampleBackend (ES.IndexName "books") ["a", "b", "c", "d", "e"]
      = ⟨[⟨"\x7b\"index\": \x7b\x7d\x7d\na\n\x7b\"index\": \x7b\x7d\x7d\nb\n",
            some "books", some "true", some 20⟩,
          ⟨"\x7b\"index\": \x7b\x7d\x7d\nc\n\x7b\"index\": \x7b\x7d\x7d\nd\n",
            some "books", some "true", some 20⟩,
          ⟨"\x7b\"index\": \x7b\x7d\x7d\ne\n", some "books", some "true", some 20⟩],
        .returned none⟩ :=
  ((save_partitions_into_batches sampleBackend (ES.IndexName "books") ["a", "b", "c", "d", "e"]
    id
    (fun i =>
      { body := String.join (((["a", "b", "c", "d", "e"].drop (i * 2)).take 2).map
            (fun item => "\x7b\"index\": \x7b\x7d\x7d\n" ++ (item ++ "\n")))
        index := some "books"
        refresh := some "true"
        timeout := some 20 })
    (by decide) (by decide) (fun _ _ => rfl) (fun _ => rfl)
    (fun _ _ => ⟨(), rfl, rfl⟩)).1).trans (by decide)

/-- C9, the claim fails: with `MaxBulkItemsLimit = 5`, `Save` rejects an input of
six items with the batch-too-large error and issues no bulk call. -/
theorem save_rejects_large_input :
    es.Save sampleBackend ES ["a", "b", "c", "d", "e", "f"]
      = ⟨[], .returned (some (.batchTooLarge "batch insert" 2))⟩ := by
  decide

/-- C9, amended: `Save` rejects an input of more than `MaxBulkItemsLimit` items up
front, with the batch-too-large error and without a bulk call; an input of at
most `MaxBulkItemsLimit` items is never rejected for its size, whatever its
length, and is partitioned into sub-batches of `BulkItemsLimit` that are
submitted in order. -/
theorem save_size_guard {α ρ : Type} (B : Backend α ρ) (e : es) (datas : List α) :
    (B.limits.MaxBulkItemsLimit < datas.length →
        e.Save B datas
          = ⟨[], .returned (some (.batchTooLarge "batch insert" B.limits.BulkItemsLimit))⟩)
      ∧ (datas.length ≤ B.limits.MaxBulkItemsLimit →
          (∀ op limit, (e.Save B datas).ending ≠ .returned (some (.batchTooLarge op limit)))
            ∧ ∀ line : α → String, 0 < B.limits.BulkItemsLimit →
                (∀ x ∈ datas, B.jsonEncode x = .ok (line x)) →
                (∀ i < batchCount B.limits.BulkItemsLimit datas.length, ∃ res,
                  B.Bulk (e.saveRequests line B.limits.BulkItemsLimit datas i)
                      (e.saveRequest
                        (saveBody line (subBatch B.limits.BulkItemsLimit datas i))) = .ok res
                    ∧ B.parseBulkResp res = .ok ()) →
                e.Save B datas
                  = ⟨(List.range (batchCount B.limits.BulkItemsLimit datas.length)).map
                      (fun i => e.saveRequest
                        (saveBody line (subBatch B.limits.BulkItemsLimit datas i))),
                    .returned none⟩) := by
  refine ⟨?_, ?_⟩
  · intro h
    rw [es.Save, if_pos h]
  · intro h
    refine ⟨?_, ?_⟩
    · intro op limit
      rw [es.Save, if_neg (Nat.not_lt.2 h)]
      exact saveLoop_not_too_large _ _ _ _ _ _ _ _
    · intro line hb henc hok
      exact Save_all_ok B e datas line hb h henc hok

/-- C9 amended, at the sample backend: six items are rejected, five are
submitted in three batches. -/
theorem save_size_guard_witness :
    (sampleBackend.limits.MaxBulkItemsLimit < ["a", "b", "c", "d", "e", "f"].length
        ∧ es.Save sampleBackend ES ["a", "b", "c", "d", "e", "f"]
          = ⟨[], .returned (some (.batchTooLarge "batch insert"
              sampleBackend.limits.BulkItemsLimit))⟩)
      ∧ (["a", "b", "c", "d", "e"].length ≤ sampleBackend.limits.MaxBulkItemsLimit
        ∧ es.Save sampleBackend ES ["a", "b", "c", "d", "e"]
          = ⟨(List.range (batchCount 2 5)).map
              (fun i => ES.saveRequest (saveBody id (subBatch 2 ["a", "b", "c", "d", "e"] i))),
            .returned none⟩) :=
  ⟨⟨by decide, (save_size_guard sampleBackend ES ["a", "b", "c", "d", "e", "f"]).1 (by decide)⟩,
    ⟨by decide, ((save_size_guard sampleBackend ES ["a", "b", "c", "d", "e"]).2 (by decide)).2 id
      (by decide) (fun _ _ => rfl) (fun _ _ => ⟨(), rfl, rfl⟩)⟩⟩

/-- C10: when the bulk calls of the sub-batches before the `k`-th succeed and the
call of the `k`-th fails, in `rawESClient.Bulk` or in `parseBulkResp`, `Save`
returns that error, has issued exactly the calls of the sub-batches up to the
`k`-th, in order, and submits no later sub-batch (`k` counts from 0, so `k + 1`
calls are issued). -/
theorem save_aborts_at_first_failure {α ρ : Type} (B : Backend α ρ) (e : es)
    (datas : List α) (line : α → String) (k : Nat) (msg : String)
    (hb : 0 < B.limits.BulkItemsLimit)
    (hacc : datas.length ≤ B.limits.MaxBulkItemsLimit)
    (henc : ∀ x ∈ datas, B.jsonEncode x = .ok (line x))
    (hk : k < batchCount B.limits.BulkItemsLimit datas.length)
    (hok : ∀ i < k, ∃ res,
      B.Bulk (e.saveRequests line B.limits.BulkItemsLimit datas i)
          (e.saveRequest (saveBody line (subBatch B.limits.BulkItemsLimit datas i))) = .ok res
        ∧ B.parseBulkResp res = .ok ()) :
    (B.Bulk (e.saveRequests line B.limits.BulkItemsLimit datas k)
          (e.saveRequest (saveBody line (subBatch B.limits.BulkItemsLimit datas k)))
        = .error msg →
      e.Save B datas
          = ⟨(List.range (k + 1)).map
              (fun i => e.saveRequest (saveBody line (subBatch B.limits.BulkItemsLimit datas i))),
            .returned (some (.client msg))⟩
        ∧ (e.Save B datas).calls.length = k + 1)
      ∧ (∀ res,
          B.Bulk (e.saveRequests line B.limits.BulkItemsLimit datas k)
              (e.saveRequest (saveBody line (subBatch B.limits.BulkItemsLimit datas k)))
            = .ok res →
          B.parseBulkResp res = .error msg →
          e.Save B datas
              = ⟨(List.range (k + 1)).map
                  (fun i => e.saveRequest
                    (saveBody line (subBatch B.limits.BulkItemsLimit datas i))),
                .returned (some (.response msg))⟩
            ∧ (e.Save B datas).calls.length = k + 1) := by
  have hc := batchCount_le B.limits.BulkItemsLimit datas.length hb
  have hlt : k * B.limits.BulkItemsLimit < datas.length := (lt_batchCount_iff _ _ _ hb).1 hk
  have hfuel : datas.length + 1 = (datas.length - k) + 1 + k := by omega
  have hrun : e.Save B datas
      = es.saveLoop B e datas (datas.length - k + 1) (k * B.limits.BulkItemsLimit)
          (e.saveRequests line B.limits.BulkItemsLimit datas k) := by
    rw [es.Save, if_neg (Nat.not_lt.2 hacc), hfuel,
      saveLoop_submits B e datas line hb henc k (le_of_lt hk) hok]
  have hsub : (datas.drop (k * B.limits.BulkItemsLimit)).take B.limits.BulkItemsLimit
      = subBatch B.limits.BulkItemsLimit datas k := rfl
  rw [saveLoop_step B e datas line hb henc _ _ _ hlt, hsub] at hrun
  have hreqs : (List.range (k + 1)).map
      (fun i => e.saveRequest (saveBody line (subBatch B.limits.BulkItemsLimit datas i)))
      = e.saveRequests line B.limits.BulkItemsLimit datas k
        ++ [e.saveRequest (saveBody line (subBatch B.limits.BulkItemsLimit datas k))] :=
    saveRequests_succ e line _ datas k
  have hlen : (e.saveRequests line B.limits.BulkItemsLimit datas k
        ++ [e.saveRequest (saveBody line (subBatch B.limits.BulkItemsLimit datas k))]).length
      = k + 1 := by
    simp [es.saveRequests]
  refine ⟨?_, ?_⟩
  · intro hfail
    rw [hfail] at hrun
    rw [hrun, hreqs]
    exact ⟨rfl, hlen⟩
  · intro res hres hparse
    rw [hres] at hrun
    simp only [hparse] at hrun
    rw [hrun, hreqs]
    exact ⟨rfl, hlen⟩

/-- C10, at the backend whose second bulk call fails: of the three sub-batches
of five items, two are submitted and the error of the second is returned. -/
theorem save_aborts_at_first_failure_witness :
    es.Save failingBackend ES ["a", "b", "c", "d", "e"]
        = ⟨(List.range 2).map
            (fun i => ES.saveRequest (saveBody id (subBatch 2 ["a", "b", "c", "d", "e"] i))),
          .returned (some (.client "unavailable"))⟩
      ∧ (es.Save failingBackend ES ["a", "b", "c", "d", "e"]).calls.length = 2 :=
  (save_aborts_at_first_failure failingBackend ES ["a", "b", "c", "d", "e"] id 1 "unavailable"
    (by decide) (by decide) (fun _ _ => rfl) (by decide)
    (fun i hi => ⟨(), by
      have : i = 0 := by omega
      subst this
      rfl, rfl⟩)).1 rfl


/-! ## Update-style bulk writes -/

theorem bulkCall_calls {α ρ : Type} (B : Backend α ρ) (request : BulkRequest) :
    (bulkCall B request).calls = [request] := by
  unfold bulkCall
  cases B.Bulk [] request with
  | error err => rfl
  | ok res =>
    simp only
    cases B.parseBulkResp res <;> rfl

theorem bulkCall_not_too_large {α ρ : Type} (B : Backend α ρ) (request : BulkRequest)
    (op : String) (limit : Nat) :
    (bulkCall B request).ending ≠ .returned (some (.batchTooLarge op limit)) := by
  unfold bulkCall
  cases B.Bulk [] request with
  | error err => simp
  | ok res =>
    simp only
    cases B.parseBulkResp res <;> simp

theorem mUpdateItems_error {α : Type} (jsonEncode : α → Except String String)
    (docs : List (Document α)) (buf : String) (err : BulkError)
    (h : mUpdateItems jsonEncode docs buf = .error err) : ∃ msg, err = .encode msg := by
  induction docs generalizing buf with
  | nil => simp [mUpdateItems] at h
  | cons d rest ih =>
    rw [mUpdateItems] at h
    cases hx : encodePayload jsonEncode (.doc d.data) with
    | error msg =>
      rw [hx] at h
      simp only [Except.error.injEq] at h
      exact ⟨msg, h.symm⟩
    | ok l =>
      rw [hx] at h
      exact ih _ h

theorem mUpsertItems_error {α : Type} (jsonEncode : α → Except String String)
    (docs : List (Document α)) (buf : String) (err : BulkError)
    (h : mUpsertItems jsonEncode docs buf = .error err) : ∃ msg, err = .encode msg := by
  induction docs generalizing buf with
  | nil => simp [mUpsertItems] at h
  | cons d rest ih =>
    rw [mUpsertItems] at h
    cases hx : encodePayload jsonEncode
        (if d.id = "" then BulkPayload.plain d.data else BulkPayload.docAsUpsert d.data) with
    | error msg =>
      rw [hx] at h
      simp only [Except.error.injEq] at h
      exact ⟨msg, h.symm⟩
    | ok l =>
      rw [hx] at h
      exact ih _ h

theorem uSaveItems_error {α : Type} (jsonEncode : α → Except String String)
    (docs : List (Document α)) (buf : String) (err : BulkError)
    (h : uSaveItems jsonEncode docs buf = .error err) : ∃ msg, err = .encode msg := by
  induction docs generalizing buf with
  | nil => simp [uSaveItems] at h
  | cons d rest ih =>
    rw [uSaveItems] at h
    cases hx : encodePayload jsonEncode
        (if d.id = "" then BulkPayload.plain d.data else BulkPayload.doc d.data) with
    | error msg =>
      rw [hx] at h
      simp only [Except.error.injEq] at h
      exact ⟨msg, h.symm⟩
    | ok l =>
      rw [hx] at h
      exact ih _ h

/-- C11: with more documents than `MaxBulkUpdateItemsLimit`, each of `MUpdateById`,
`MUpsertById` and `USave` returns its batch-too-large error and issues no bulk
call; with at most that many documents none of them returns a batch-too-large
error. -/
theorem update_batches_fail_fast {α ρ : Type} (B : Backend α ρ) (e : es)
    (docs : List (Document α)) :
    (B.limits.MaxBulkUpdateItemsLimit < docs.length →
        e.MUpdateById B docs
            = ⟨[], .returned (some (.batchTooLarge "multi-update" B.limits.BulkItemsLimit))⟩
          ∧ e.MUpsertById B docs
            = ⟨[], .returned (some (.batchTooLarge "multi-upsert" B.limits.BulkItemsLimit))⟩
          ∧ e.USave B docs
            = ⟨[], .returned (some (.batchTooLarge "usave" B.limits.BulkItemsLimit))⟩)
      ∧ (docs.length ≤ B.limits.MaxBulkUpdateItemsLimit →
          ∀ op limit,
            (e.MUpdateById B docs).ending ≠ .returned (some (.batchTooLarge op limit))
              ∧ (e.MUpsertById B docs).ending ≠ .returned (some (.batchTooLarge op limit))
              ∧ (e.USave B docs).ending ≠ .returned (some (.batchTooLarge op limit))) := by
  refine ⟨?_, ?_⟩
  · intro h
    simp only [es.MUpdateById, es.MUpsertById, es.USave, if_pos h, and_self]
  · intro h op limit
    have hn := Nat.not_lt.2 h
    simp only [es.MUpdateById, es.MUpsertById, es.USave, if_neg hn]
    refine ⟨?_, ?_, ?_⟩
    · cases hb : mUpdateItems B.jsonEncode docs "" with
      | error err =>
        obtain ⟨msg, rfl⟩ := mUpdateItems_error _ _ _ _ hb
        simp
      | ok body => exact bulkCall_not_too_large _ _ _ _
    · cases hb : mUpsertItems B.jsonEncode docs "" with
      | error err =>
        obtain ⟨msg, rfl⟩ := mUpsertItems_error _ _ _ _ hb
        simp
      | ok body => exact bulkCall_not_too_large _ _ _ _
    · cases hb : uSaveItems B.jsonEncode docs "" with
      | error err =>
        obtain ⟨msg, rfl⟩ := uSaveItems_error _ _ _ _ hb
        simp
      | ok body => exact bulkCall_not_too_large _ _ _ _

/-- C11, at the sample backend (update ceiling 3): four documents are rejected
without a bulk call. -/
theorem update_batches_fail_fast_witness :
    sampleBackend.limits.MaxBulkUpdateItemsLimit
        < [NewDoc "1" "a", NewDoc "2" "b", NewDoc "3" "c", NewDoc "4" "d"].length
      ∧ es.MUpdateById sampleBackend ES
          [NewDoc "1" "a", NewDoc "2" "b", NewDoc "3" "c", NewDoc "4" "d"]
        = ⟨[], .returned (some (.batchTooLarge "multi-update"
            sampleBackend.limits.BulkItemsLimit))⟩ :=
  ⟨by decide, ((update_batches_fail_fast sampleBackend ES
    [NewDoc "1" "a", NewDoc "2" "b", NewDoc "3" "c", NewDoc "4" "d"]).1 (by decide)).1⟩

/-- C12, evaluated at one document whose id holds a newline: the body of
`MUpdateById`, `MUpsertById` and `USave` has three lines, not two; the action
line is cut in two by the newline of the id. -/
theorem bulk_body_id_with_newline :
    (es.MUpdateById sampleBackend ES [NewDoc "a\nb" "1"]).calls.map (fun r => bodyLines r.body)
        = [["\x7b\"update\": \x7b\"_id\": \"a", "b\"\x7d\x7d", "\x7b\"doc\":1\x7d"]]
      ∧ (es.MUpsertById sampleBackend ES [NewDoc "a\nb" "1"]).calls.map
          (fun r => bodyLines r.body)
        = [["\x7b\"update\": \x7b\"_id\": \"a", "b\"\x7d\x7d",
            "\x7b\"doc\":1,\"doc_as_upsert\":true\x7d"]]
      ∧ (es.USave sampleBackend ES [NewDoc "a\nb" "1"]).calls.map (fun r => bodyLines r.body)
        = [["\x7b\"update\": \x7b\"_id\": \"a", "b\"\x7d\x7d", "\x7b\"doc\":1\x7d"]] := by
  decide

theorem mUpdateItems_ok {α : Type} (jsonEncode : α → Except String String) (text : α → String)
    (docs : List (Document α)) (buf : String)
    (h : ∀ d ∈ docs, jsonEncode d.data = .ok (text d.data)) :
    mUpdateItems jsonEncode docs buf
      = .ok (buf ++ concatTexts (docs.map (updateLines text))) := by
  induction docs generalizing buf with
  | nil => simp [mUpdateItems, concatTexts]
  | cons d rest ih =>
    simp only [mUpdateItems, encodePayload, h d (List.mem_cons_self _ _)]
    rw [ih _ (fun y hy => h y (List.mem_cons_of_mem _ hy))]
    simp [concatTexts, updateLines, String.append_assoc]

theorem mUpsertItems_ok {α : Type} (jsonEncode : α → Except String String) (text : α → String)
    (docs : List (Document α)) (buf : String)
    (h : ∀ d ∈ docs, jsonEncode d.data = .ok (text d.data)) :
    mUpsertItems jsonEncode docs buf
      = .ok (buf ++ concatTexts (docs.map (upsertLines text))) := by
  induction docs generalizing buf with
  | nil => simp [mUpsertItems, concatTexts]
  | cons d rest ih =>
    have hd := h d (List.mem_cons_self _ _)
    by_cases hid : d.id = ""
    · simp only [mUpsertItems, hid, if_true, encodePayload, hd]
      rw [ih _ (fun y hy => h y (List.mem_cons_of_mem _ hy))]
      simp [concatTexts, upsertLines, hid, String.append_assoc]
    · simp only [mUpsertItems, hid, if_false, encodePayload, hd]
      rw [ih _ (fun y hy => h y (List.mem_cons_of_mem _ hy))]
      simp [concatTexts, upsertLines, hid, String.append_assoc]

theorem uSaveItems_ok {α : Type} (jsonEncode : α → Except String String) (text : α → String)
    (docs : List (Document α)) (buf : String)
    (h : ∀ d ∈ docs, jsonEncode d.data = .ok (text d.data)) :
    uSaveItems jsonEncode docs buf
      = .ok (buf ++ concatTexts (docs.map (uSaveLines text))) := by
  induction docs generalizing buf with
  | nil => simp [uSaveItems, concatTexts]
  | cons d rest ih =>
    have hd := h d (List.mem_cons_self _ _)
    by_cases hid : d.id = ""
    · simp only [uSaveItems, hid, if_true, encodePayload, hd]
      rw [ih _ (fun y hy => h y (List.mem_cons_of_mem _ hy))]
      simp [concatTexts, uSaveLines, hid, String.append_assoc]
    · simp only [uSaveItems, hid, if_false, encodePayload, hd]
      rw [ih _ (fun y hy => h y (List.mem_cons_of_mem _ hy))]
      simp [concatTexts, uSaveLines, hid, String.append_assoc]

/-- C13: for documents whose payloads encode, `MUpsertById` and `USave` issue one
bulk call whose body holds, per document and in order, for an empty id the
create action line and the payload itself, and for a non-empty id the update
action line with that id and then `doc` with the payload, together with
`doc_as_upsert` set to true for `MUpsertById` and without it for `USave`; so
`UpsertById` with an empty id sends a create. -/
theorem upsert_create_or_update {α ρ : Type} (B : Backend α ρ) (e : es)
    (docs : List (Document α)) (text : α → String)
    (hsize : docs.length ≤ B.limits.MaxBulkUpdateItemsLimit)
    (henc : ∀ d ∈ docs, B.jsonEncode d.data = .ok (text d.data)) :
    (e.MUpsertById B docs).calls
        = [e.updateRequest (concatTexts (docs.map (fun d =>
            if d.id = "" then
              "\x7b\"index\": \x7b\x7d\x7d" ++ "\n" ++ (text d.data ++ "\n")
            else
              "\x7b\"update\": \x7b\"_id\": \"" ++ d.id ++ "\"\x7d\x7d" ++ "\n"
                ++ ("\x7b\"doc\":" ++ text d.data ++ ",\"doc_as_upsert\":true\x7d" ++ "\n"))))]
      ∧ (e.USave B docs).calls
        = [e.updateRequest (concatTexts (docs.map (fun d =>
            if d.id = "" then
              "\x7b\"index\": \x7b\x7d\x7d" ++ "\n" ++ (text d.data ++ "\n")
            else
              "\x7b\"update\": \x7b\"_id\": \"" ++ d.id ++ "\"\x7d\x7d" ++ "\n"
                ++ ("\x7b\"doc\":" ++ text d.data ++ "\x7d" ++ "\n"))))]
      ∧ (∀ payload : α, B.jsonEncode payload = .ok (text payload) →
          0 < B.limits.MaxBulkUpdateItemsLimit →
          (e.UpsertById B "" payload).calls
            = [e.updateRequest
                ("\x7b\"index\": \x7b\x7d\x7d" ++ "\n" ++ (text payload ++ "\n"))]) := by
  have hn := Nat.not_lt.2 hsize
  refine ⟨?_, ?_, ?_⟩
  · simp only [es.MUpsertById, if_neg hn, mUpsertItems_ok _ text docs "" henc,
      String.empty_append, bulkCall_calls]
    rfl
  · simp only [es.USave, if_neg hn, uSaveItems_ok _ text docs "" henc,
      String.empty_append, bulkCall_calls]
    rfl
  · intro payload hp hpos
    have h1 : ¬ [NewDoc "" payload].length > B.limits.MaxBulkUpdateItemsLimit := by
      simp only [List.length_singleton]
      omega
    have h2 : ∀ d ∈ [NewDoc "" payload], B.jsonEncode d.data = .ok (text d.data) := by
      intro d hd
      rw [List.mem_singleton.1 hd]
      exact hp
    simp only [es.UpsertById, es.MUpsertById, if_neg h1,
      mUpsertItems_ok _ text [NewDoc "" payload] "" h2, String.empty_append, bulkCall_calls]
    simp [concatTexts, upsertLines, NewDoc, indexAction, es.updateRequest]

/-- C13, at the sample backend: one document without an id and one with the id `7`. -/
theorem upsert_create_or_update_witness :
    (es.MUpsertById sampleBackend ES [NewDoc "" "1", NewDoc "7" "2"]).calls
        = [ES.updateRequest
            ("\x7b\"index\": \x7b\x7d\x7d\n1\n\x7b\"update\": \x7b\"_id\": \"7\"\x7d\x7d\n"
              ++ "\x7b\"doc\":2,\"doc_as_upsert\":true\x7d\n")]
      ∧ (es.USave sampleBackend ES [NewDoc "" "1", NewDoc "7" "2"]).calls
        = [ES.updateRequest
            ("\x7b\"index\": \x7b\x7d\x7d\n1\n\x7b\"update\": \x7b\"_id\": \"7\"\x7d\x7d\n"
              ++ "\x7b\"doc\":2\x7d\n")] := by
  have h := upsert_create_or_update sampleBackend ES [NewDoc "" "1", NewDoc "7" "2"] id
    (by decide) (fun _ _ => rfl)
  refine ⟨?_, ?_⟩
  · rw [h.1]
    decide
  · rw [h.2.1]
    decide

/-! ### The lines of a bulk body -/

theorem bodyLinesAux_line (l : List Char) (current rest : List Char) (h : '\n' ∉ l) :
    bodyLinesAux (l ++ '\n' :: rest) current
      = String.mk (current.reverse ++ l) :: bodyLinesAux rest [] := by
  induction l generalizing current with
  | nil => simp [bodyLinesAux]
  | cons c l ih =>
    have hc : c ≠ '\n' := fun e => h (by simp [e])
    have hl : '\n' ∉ l := fun e => h (List.mem_cons_of_mem _ e)
    simp [bodyLinesAux, hc, ih _ hl]

theorem bodyLines_terminated (ls : List String) (h : ∀ l ∈ ls, '\n' ∉ l.data) :
    bodyLines (concatTexts (ls.map (fun l => l ++ "\n"))) = ls := by
  unfold bodyLines
  induction ls with
  | nil => rfl
  | cons l rest ih =>
    have hdata : (concatTexts ((l :: rest).map (fun l => l ++ "\n"))).data
        = l.data ++ '\n' :: (concatTexts (rest.map (fun l => l ++ "\n"))).data := by
      simp [concatTexts, String.data_append]
    rw [hdata, bodyLinesAux_line _ _ _ (h l (List.mem_cons_self _ _)),
      ih (fun x hx => h x (List.mem_cons_of_mem _ hx))]
    simp

/-- When no id and no encoded payload holds a newline, the body of `MUpdateById`
has two lines per document: its action line and its payload line. -/
theorem mUpdate_body_lines {α ρ : Type} (B : Backend α ρ) (e : es)
    (docs : List (Document α)) (text : α → String)
    (hsize : docs.length ≤ B.limits.MaxBulkUpdateItemsLimit)
    (henc : ∀ d ∈ docs, B.jsonEncode d.data = .ok (text d.data))
    (hid : ∀ d ∈ docs, '\n' ∉ d.id.data) (htext : ∀ d ∈ docs, '\n' ∉ (text d.data).data) :
    (e.MUpdateById B docs).calls.map (fun r => bodyLines r.body)
      = [(docs.map (fun d =>
          [updateAction d.id, "\x7b\"doc\":" ++ text d.data ++ "\x7d"])).flatten] := by
  have hn := Nat.not_lt.2 hsize
  have hbody : concatTexts (docs.map (updateLines text))
      = concatTexts (((docs.map (fun d =>
          [updateAction d.id, "\x7b\"doc\":" ++ text d.data ++ "\x7d"])).flatten).map
            (fun l => l ++ "\n")) := by
    clear hsize henc hid htext hn
    induction docs with
    | nil => rfl
    | cons d rest ih =>
      simp only [List.map_cons, List.flatten_cons, concatTexts, ih, List.cons_append,
        List.nil_append, updateLines, String.append_assoc]
      rfl
  simp only [es.MUpdateById, if_neg hn, mUpdateItems_ok _ text docs "" henc,
    String.empty_append, bulkCall_calls, List.map_cons, List.map_nil, hbody]
  rw [bodyLines_terminated]
  intro l hl
  simp only [List.mem_flatten, List.mem_map] at hl
  obtain ⟨pair, ⟨d, hd, rfl⟩, hl⟩ := hl
  simp only [List.mem_cons, List.mem_singleton, List.not_mem_nil, or_false] at hl
  rcases hl with rfl | rfl
  · simp only [updateAction, String.data_append, List.mem_append, not_or]
    exact ⟨⟨by decide, hid d hd⟩, by decide⟩
  · simp only [String.data_append, List.mem_append, not_or]
    exact ⟨⟨by decide, htext d hd⟩, by decide⟩


/-! ## The result decoder -/

theorem arrayLoop_ok {ρ : Type} (C : Codec ρ) (zero : Value)
    (hits : List SearchResultHitResult) (slice : List Value)
    (h : ∀ hit ∈ hits,
      (parseSearchResultIndexHit C hit.Id hit.Source (.ptr (some zero))).err = none) :
    arrayLoop C zero hits slice
      = .ok (slice ++ hits.map (fun hit =>
          (parseSearchResultIndexHit C hit.Id hit.Source (.ptr (some zero))).value.pointee zero)) := by
  induction hits generalizing slice with
  | nil => simp [arrayLoop]
  | cons hit rest ih =>
    rw [arrayLoop]
    simp only [h hit (List.mem_cons_self _ _)]
    rw [ih _ (fun x hx => h x (List.mem_cons_of_mem _ hx))]
    simp

theorem parseSearchResultIndexHit_decoded {ρ : Type} (C : Codec ρ) (esID dataRaw : String)
    (target : Value) (h : (C.unmarshal dataRaw target).2 = none) :
    parseSearchResultIndexHit C esID dataRaw (.ptr (some target))
      = injectId esID (.ptr (some (C.unmarshal dataRaw target).1)) := by
  have hd : decodeInto C dataRaw (.ptr (some target))
      = (.ptr (some (C.unmarshal dataRaw target).1), none) := by
    show (Value.ptr (some (C.unmarshal dataRaw target).1),
      (C.unmarshal dataRaw target).2.map DecodeError.unmarshal) = _
    rw [h]
    rfl
  unfold parseSearchResultIndexHit
  rw [hd]

theorem injectFields_settable (esID : String) (fields : List (FieldInfo × Value))
    (h : ∀ f ∈ fields, f.1.tagged = true → settable f = true) :
    injectFields esID fields
      = (fields.map (fun f => if f.1.tagged then withId esID f else f), false) := by
  induction fields with
  | nil => rfl
  | cons f rest ih =>
    have ih' := ih (fun g hg => h g (List.mem_cons_of_mem _ hg))
    obtain ⟨info, v⟩ := f
    by_cases ht : info.tagged = true
    · have hs := h (info, v) (List.mem_cons_self _ _) ht
      simp only [settable, Bool.and_eq_true] at hs
      cases v with
      | str s => simp [injectFields, ht, setString, hs.1, ih', withId]
      | iface d => simp [injectFields, ht, setString, hs.1, ih', withId]
      | other j => simp at hs
      | ptr t => simp at hs
      | slice z items => simp at hs
      | map a entries => simp at hs
      | struct fs => simp at hs
    · simp [injectFields, ht, ih']

theorem injectId_takesId (esID : String) :
    ∀ d : Value, takesId d = true →
      injectId esID (.ptr (some d)) = ⟨.ptr (some (idInjected esID d)), none, false⟩ := by
  intro d
  induction d using takesId.induct with
  | case1 m => intro _; rfl
  | case2 fields =>
    intro h
    have hs : ∀ f ∈ fields, f.1.tagged = true → settable f = true := by
      intro f hf ht
      have := (List.all_eq_true.1 h) f hf
      simpa [ht] using this
    simp only [injectId, injectFields_settable esID fields hs, idInjected]
  | case3 target ih =>
    intro h
    have ih' := ih (by simpa [takesId] using h)
    simp only [injectId, ih', idInjected]
  | case4 m => intro _; rfl
  | case5 v h1 h2 h3 h4 =>
    intro h
    unfold takesId at h
    split at h <;> simp_all

/-- C14, the claim fails: decoding a hit with the id `7` into a slice of structs
whose field tagged `_id` is an `int` succeeds, and the element holds the decoded
source but not the id. -/
theorem decode_slice_element_without_id :
    es.parseSearchRespResult sampleCodec ES ⟨[⟨"7", "a"⟩], 1, ""⟩
        (.ptr (some (.slice (.struct [(⟨"ID", "_id", true⟩, .other (.num 0)),
          (⟨"Title", "title", true⟩, .str "")]) [])))
      = ⟨.ptr (some (.slice (.struct [(⟨"ID", "_id", true⟩, .other (.num 0)),
            (⟨"Title", "title", true⟩, .str "")])
          [.struct [(⟨"ID", "_id", true⟩, .other (.num 0)),
            (⟨"Title", "title", true⟩, .str "a")]])), 1, none⟩ := by
  rfl

/-- C14, amended: for a query that is not an aggregation and a response with the
hits `h1..hk`, each of which decodes into a fresh element that has a place for
the id (an initialized string-keyed map, a struct whose fields tagged `_id` or
`es_id` are exported `string` or `interface{}` fields, or a pointer to one of
these), decoding into a pointer to a slice returns the engine total with a nil
error and leaves the slice holding exactly the `k` elements, the `i`-th being
the decoding of the source of `hi` with the id of `hi` injected (under the key
`_id` of a map, in each tagged field of a struct), in engine order, whatever the
slice held before and whatever the total is. -/
theorem decode_slice_keeps_order {ρ : Type} (C : Codec ρ) (e : es) (res : ρ)
    (resp : SearchResult) (zero : Value) (old : List Value)
    (hq : e.isAgg = false) (hresp : C.parseSearchRespDefaultDecode res = .ok resp)
    (hdec : ∀ hit ∈ resp.IndexHits,
      (C.unmarshal hit.Source zero).2 = none
        ∧ takesId (C.unmarshal hit.Source zero).1 = true) :
    e.parseSearchRespResult C res (.ptr (some (.slice zero old)))
        = ⟨.ptr (some (.slice zero (resp.IndexHits.map (fun hit =>
              idInjected hit.Id (C.unmarshal hit.Source zero).1)))),
            resp.Total, none⟩
      ∧ (resp.IndexHits.map (fun hit =>
            idInjected hit.Id (C.unmarshal hit.Source zero).1)).length = resp.IndexHits.length
      ∧ (∀ (esID : String) (m : List (String × Value)),
          ∃ m', idInjected esID (.map true (some m)) = .map true (some m')
            ∧ GoMap.get m' "_id" = some (.str esID)
            ∧ ∀ k, k ≠ "_id" → GoMap.get m' k = GoMap.get m k)
      ∧ (∀ (esID : String) (fields : List (FieldInfo × Value)),
          ∃ fields', idInjected esID (.struct fields) = .struct fields'
            ∧ fields'.length = fields.length
            ∧ ∀ i (hi : i < fields.length) (hi' : i < fields'.length),
                fields'.get ⟨i, hi'⟩
                  = if (fields.get ⟨i, hi⟩).1.tagged then withId esID (fields.get ⟨i, hi⟩)
                    else fields.get ⟨i, hi⟩) := by
  have hhit : ∀ hit ∈ resp.IndexHits,
      parseSearchResultIndexHit C hit.Id hit.Source (.ptr (some zero))
        = ⟨.ptr (some (idInjected hit.Id (C.unmarshal hit.Source zero).1)), none, false⟩ := by
    intro hit hm
    rw [parseSearchResultIndexHit_decoded C _ _ _ (hdec hit hm).1]
    exact injectId_takesId hit.Id _ (hdec hit hm).2
  have herr : ∀ hit ∈ resp.IndexHits,
      (parseSearchResultIndexHit C hit.Id hit.Source (.ptr (some zero))).err = none := by
    intro hit hm
    rw [hhit hit hm]
  have hmap : resp.IndexHits.map (fun hit =>
        (parseSearchResultIndexHit C hit.Id hit.Source (.ptr (some zero))).value.pointee zero)
      = resp.IndexHits.map (fun hit =>
        idInjected hit.Id (C.unmarshal hit.Source zero).1) :=
    List.map_congr_left (fun hit hm => by rw [hhit hit hm]; rfl)
  refine ⟨?_, by simp, ?_, ?_⟩
  · simp only [es.parseSearchRespResult, hresp, hq, elemKind, Value.kind,
      parseSearchRespResultArray, arrayLoop_ok C zero _ [] herr, List.nil_append, hmap]
    rfl
  · intro esID m
    refine ⟨GoMap.set "_id" (.str esID) m, rfl, ?_, ?_⟩
    · rw [GoMap.get_set, if_pos rfl]
    · intro k hk
      rw [GoMap.get_set, if_neg hk]
  · intro esID fields
    refine ⟨fields.map (fun f => if f.1.tagged then withId esID f else f),
      by simp only [idInjected], by simp, ?_⟩
    intro i hi hi'
    simp

/-- C14 amended, at two hits decoded into a slice of maps that held one element:
the slice holds the two decoded hits with their ids, in order, and the total 9
is returned. -/
theorem decode_slice_keeps_order_witness :
    es.parseSearchRespResult sampleCodec ES ⟨[⟨"1", "a"⟩, ⟨"2", "b"⟩], 9, ""⟩
        (.ptr (some (.slice (.map true none) [.map true none])))
      = ⟨.ptr (some (.slice (.map true none)
            [.map true (some [("_id", .str "1"), ("title", .str "a")]),
              .map true (some [("_id", .str "2"), ("title", .str "b")])])),
          9, none⟩ :=
  (decode_slice_keeps_order sampleCodec ES ⟨[⟨"1", "a"⟩, ⟨"2", "b"⟩], 9, ""⟩
    ⟨[⟨"1", "a"⟩, ⟨"2", "b"⟩], 9, ""⟩ (.map true none) [.map true none] rfl rfl
    (by
      intro hit hm
      simp only [List.mem_cons, List.mem_singleton, List.not_mem_nil, or_false] at hm
      rcases hm with rfl | rfl <;> exact ⟨rfl, rfl⟩)).1

/-- C15: for a query that is not an aggregation, decoding a response without
hits into a pointer to a map, nil or initialized, or into a pointer to a struct
returns `NotFoundError` with the total 0 and leaves the destination as it was. -/
theorem decode_singular_no_hits {ρ : Type} (C : Codec ρ) (e : es) (res : ρ)
    (resp : SearchResult) (target : Value)
    (hq : e.isAgg = false) (hresp : C.parseSearchRespDefaultDecode res = .ok resp)
    (hhits : resp.IndexHits = [])
    (hkind : target.kind = .Map ∨ target.kind = .Struct) :
    e.parseSearchRespResult C res (.ptr (some target))
      = ⟨.ptr (some target), 0, some .notFound⟩ := by
  rcases hkind with hk | hk
  · simp [es.parseSearchRespResult, hresp, hq, elemKind, hk, hhits]
  · simp [es.parseSearchRespResult, hresp, hq, elemKind, hk, hhits]

/-- C15, at a nil map, an initialized map and a struct. -/
theorem decode_singular_no_hits_witness :
    es.parseSearchRespResult sampleCodec ES ⟨[], 0, ""⟩ (.ptr (some (.map true none)))
        = ⟨.ptr (some (.map true none)), 0, some .notFound⟩
      ∧ es.parseSearchRespResult sampleCodec ES ⟨[], 0, ""⟩
          (.ptr (some (.map true (some [("k", .str "v")]))))
        = ⟨.ptr (some (.map true (some [("k", .str "v")]))), 0, some .notFound⟩
      ∧ es.parseSearchRespResult sampleCodec ES ⟨[], 0, ""⟩
          (.ptr (some (.struct [(⟨"Title", "title", true⟩, .str "old")])))
        = ⟨.ptr (some (.struct [(⟨"Title", "title", true⟩, .str "old")])), 0,
            some .notFound⟩ :=
  ⟨decode_singular_no_hits sampleCodec ES ⟨[], 0, ""⟩ ⟨[], 0, ""⟩ _ rfl rfl rfl (Or.inl rfl),
    decode_singular_no_hits sampleCodec ES ⟨[], 0, ""⟩ ⟨[], 0, ""⟩ _ rfl rfl rfl (Or.inl rfl),
    decode_singular_no_hits sampleCodec ES ⟨[], 0, ""⟩ ⟨[], 0, ""⟩ _ rfl rfl rfl (Or.inr rfl)⟩

/-- Decoding into a pointer to an initialized map never succeeds when there is a
hit: `parseSearchRespResult` hands the map itself, not its address, to
`parseSearchResultIndexHit`, and `Decode` refuses a value that is not a pointer. -/
theorem decode_map_refused {ρ : Type} (C : Codec ρ) (e : es) (res : ρ)
    (resp : SearchResult) (acceptsString : Bool) (m : List (String × Value))
    (hit : SearchResultHitResult) (rest : List SearchResultHitResult)
    (hq : e.isAgg = false) (hresp : C.parseSearchRespDefaultDecode res = .ok resp)
    (hhits : resp.IndexHits = hit :: rest) :
    e.parseSearchRespResult C res (.ptr (some (.map acceptsString (some m))))
      = ⟨.ptr (some (.map acceptsString (some m))), 0, some .invalidUnmarshal⟩ := by
  simp [es.parseSearchRespResult, hresp, hq, elemKind, Value.kind, hhits,
    parseSearchResultIndexHit, decodeInto]

/-- C16, evaluated at one hit with the id `1` and a pointer to an initialized
`map[string]interface{}`: the call returns the total 0 and the error of `Decode`
for a value that is not a pointer, and the map holds neither the fields of the
source nor `_id`. -/
theorem decode_map_one_hit_fails :
    es.parseSearchRespResult sampleCodec ES ⟨[⟨"1", "a"⟩], 1, ""⟩
        (.ptr (some (.map true (some []))))
      = ⟨.ptr (some (.map true (some []))), 0, some .invalidUnmarshal⟩ :=
  decode_map_refused sampleCodec ES _ ⟨[⟨"1", "a"⟩], 1, ""⟩ true [] ⟨"1", "a"⟩ [] rfl rfl rfl

/-- C17, the claim fails: a response with two hits is decoded into a pointer to a
struct with a nil error; the struct holds the first hit. -/
theorem decode_struct_two_hits_succeeds :
    es.parseSearchRespResult sampleCodec ES ⟨[⟨"1", "a"⟩, ⟨"2", "b"⟩], 2, ""⟩
        (.ptr (some (.struct [(⟨"ID", "_id", true⟩, .str ""), (⟨"Title", "title", true⟩, .str "")])))
      = ⟨.ptr (some (.struct
            [(⟨"ID", "_id", true⟩, .str "1"), (⟨"Title", "title", true⟩, .str "a")])),
          2, none⟩ := by
  rfl

/-- C17, amended: decoding into a pointer to a struct needs at least one hit.
Without hits it returns `NotFoundError`; with one or more hits only the first one
is decoded: the destination, and the error if any, are those of
`parseSearchResultIndexHit` on the first hit, the engine total is returned when
that call returns no error, and the later hits do not matter. -/
theorem decode_struct_first_hit {ρ : Type} (C : Codec ρ) (e : es) (res : ρ)
    (resp : SearchResult) (fields : List (FieldInfo × Value))
    (hq : e.isAgg = false) (hresp : C.parseSearchRespDefaultDecode res = .ok resp) :
    (resp.IndexHits = [] →
        e.parseSearchRespResult C res (.ptr (some (.struct fields)))
          = ⟨.ptr (some (.struct fields)), 0, some .notFound⟩)
      ∧ (∀ (hit : SearchResultHitResult) (rest : List SearchResultHitResult),
          resp.IndexHits = hit :: rest →
          (e.parseSearchRespResult C res (.ptr (some (.struct fields)))).results
              = (parseSearchResultIndexHit C hit.Id hit.Source
                  (.ptr (some (.struct fields)))).value
            ∧ (e.parseSearchRespResult C res (.ptr (some (.struct fields)))).err
              = (parseSearchResultIndexHit C hit.Id hit.Source
                  (.ptr (some (.struct fields)))).err
            ∧ ((parseSearchResultIndexHit C hit.Id hit.Source
                  (.ptr (some (.struct fields)))).err = none →
                (e.parseSearchRespResult C res (.ptr (some (.struct fields)))).total
                  = resp.Total)) := by
  refine ⟨?_, ?_⟩
  · intro h
    simp [es.parseSearchRespResult, hresp, hq, elemKind, Value.kind, h]
  · intro hit rest h
    simp only [es.parseSearchRespResult, hresp, hq, elemKind, Value.kind, h]
    cases hr : (parseSearchResultIndexHit C hit.Id hit.Source
        (.ptr (some (.struct fields)))).err with
    | none => simp
    | some err => simp

/-- C17 amended, at a response with two hits: the struct holds the first hit. -/
theorem decode_struct_first_hit_witness :
    (es.parseSearchRespResult sampleCodec ES ⟨[⟨"1", "a"⟩, ⟨"2", "b"⟩], 2, ""⟩
        (.ptr (some (.struct [(⟨"Title", "title", true⟩, .str "")])))).results
      = (parseSearchResultIndexHit sampleCodec "1" "a"
          (.ptr (some (.struct [(⟨"Title", "title", true⟩, .str "")])))).value :=
  ((decode_struct_first_hit sampleCodec ES ⟨[⟨"1", "a"⟩, ⟨"2", "b"⟩], 2, ""⟩
    ⟨[⟨"1", "a"⟩, ⟨"2", "b"⟩], 2, ""⟩ [(⟨"Title", "title", true⟩, .str "")] rfl rfl).2
    ⟨"1", "a"⟩ [⟨"2", "b"⟩] rfl).1

/-- C18, the claim fails: in a struct with a field tagged `_id` and a field tagged
`es_id` the injection assigns the id to both fields, not to the first only. -/
theorem inject_id_sets_every_tagged_field :
    parseSearchResultIndexHit sampleCodec "7" "a"
        (.ptr (some (.struct [(⟨"ID", "_id", true⟩, .str ""), (⟨"EsID", "es_id", true⟩, .str ""),
          (⟨"Title", "title", true⟩, .str "")])))
      = ⟨.ptr (some (.struct [(⟨"ID", "_id", true⟩, .str "7"),
            (⟨"EsID", "es_id", true⟩, .str "7"), (⟨"Title", "title", true⟩, .str "a")])),
          none, false⟩ := by
  rfl

/-- C18, amended: when the source decodes into a struct each of whose fields with
`_id` or `es_id` among the comma-separated parts of its json tag is an exported
field of type `string` or `interface{}`, every such field holds the id after
`parseSearchResultIndexHit`, every other field has the value that the decoding
gave it, and the error is nil; when no field has such a tag, the call returns a
nil error and the struct is the plain decoding of the source. -/
theorem inject_id_into_tagged_fields {ρ : Type} (C : Codec ρ) (esID dataRaw : String)
    (zero : Value) (fields : List (FieldInfo × Value))
    (hdec : C.unmarshal dataRaw zero = (.struct fields, none)) :
    ((∀ f ∈ fields, f.1.tagged = true → settable f = true) →
        parseSearchResultIndexHit C esID dataRaw (.ptr (some zero))
          = ⟨.ptr (some (.struct
              (fields.map (fun f => if f.1.tagged then withId esID f else f)))), none, false⟩)
      ∧ ((∀ f ∈ fields, f.1.tagged = false) →
          parseSearchResultIndexHit C esID dataRaw (.ptr (some zero))
            = ⟨.ptr (some (.struct fields)), none, false⟩)
      ∧ (∀ (info : FieldInfo) (s : String), withId esID (info, .str s) = (info, .str esID))
      ∧ (∀ (info : FieldInfo) (d : Option Value),
          withId esID (info, .iface d) = (info, .iface (some (.str esID)))) := by
  have hd : parseSearchResultIndexHit C esID dataRaw (.ptr (some zero))
      = injectId esID (.ptr (some (.struct fields))) := by
    rw [parseSearchResultIndexHit_decoded C esID dataRaw zero (by rw [hdec]), hdec]
  refine ⟨?_, ?_, fun _ _ => rfl, fun _ _ => rfl⟩
  · intro h
    rw [hd]
    simp only [injectId, injectFields_settable esID fields h]
  · intro h
    rw [hd]
    have h' : ∀ f ∈ fields, f.1.tagged = true → settable f = true := by
      intro f hf ht
      rw [h f hf] at ht
      exact absurd ht (by simp)
    have hmap : fields.map (fun f => if f.1.tagged then withId esID f else f) = fields := by
      conv => rhs; rw [← List.map_id fields]
      exact List.map_congr_left (fun f hf => by simp [h f hf])
    simp only [injectId, injectFields_settable esID fields h', hmap]

/-- C18 amended, at a struct with the tag `_id,omitempty` on a string field. -/
theorem inject_id_into_tagged_fields_witness :
    parseSearchResultIndexHit sampleCodec "7" "a"
        (.ptr (some (.struct [(⟨"ID", "_id,omitempty", true⟩, .str ""),
          (⟨"Title", "title", true⟩, .str "")])))
      = ⟨.ptr (some (.struct
          ([(⟨"ID", "_id,omitempty", true⟩, Value.str ""),
            (⟨"Title", "title", true⟩, Value.str "a")].map
            (fun f => if f.1.tagged then withId "7" f else f)))), none, false⟩ :=
  (inject_id_into_tagged_fields sampleCodec "7" "a"
    (.struct [(⟨"ID", "_id,omitempty", true⟩, .str ""), (⟨"Title", "title", true⟩, .str "")])
    [(⟨"ID", "_id,omitempty", true⟩, .str ""), (⟨"Title", "title", true⟩, .str "a")] rfl).1
    (by decide)

/-- Whenever `parseSearchResultIndexHit` recovers a panic of the injection, the
error it returns is nil. -/
theorem injectId_recovered_nil (esID : String) (v : Value) :
    (injectId esID v).recovered = true → (injectId esID v).err = none := by
  induction v using injectId.induct esID with
  | case1 => intro _; rfl
  | case2 fields fields' panicked h => intro _; simp [injectId]
  | case3 a entries h => intro _; simp [injectId, h]
  | case4 a entries m h => intro _; simp [injectId, h]
  | case5 target h1 h2 ih =>
    intro hr
    rw [injectId] at hr ⊢
    · exact ih hr
    · exact fun fs e => h1 fs e
    · exact fun a en e => h2 a en e
    · exact fun fs e => h1 fs e
    · exact fun a en e => h2 a en e
  | case6 => intro _; rfl
  | case7 a entries h => intro _; simp [injectId, h]
  | case8 a entries m h => intro _; simp [injectId, h]
  | case9 fields => intro h; simp [injectId] at h
  | case10 d h1 h2 =>
    intro h
    rw [injectId] at h ⊢
    · exact fun a en e => h1 a en e
    · exact fun fs e => h2 fs e
    · exact fun a en e => h1 a en e
    · exact fun fs e => h2 fs e
  | case11 v h1 h2 h3 h4 h5 h6 h7 h8 =>
    intro _
    rw [injectId]
    all_goals first | exact h1 | exact h2 | exact h3 | exact h4 | exact h5 | exact h6 | exact h7 | exact h8

theorem parseSearchResultIndexHit_recovered_nil {ρ : Type} (C : Codec ρ)
    (esID dataRaw : String) (elemp : Value)
    (h : (parseSearchResultIndexHit C esID dataRaw elemp).recovered = true) :
    (parseSearchResultIndexHit C esID dataRaw elemp).err = none := by
  unfold parseSearchResultIndexHit at h ⊢
  generalize decodeInto C dataRaw elemp = p at h ⊢
  obtain ⟨v, err⟩ := p
  cases err with
  | some e => simp at h
  | none => exact injectId_recovered_nil esID v h

/-- C19, evaluated at a struct whose field tagged `_id` is an `int`: the
assignment of the id panics, the panic is recovered, and both
`parseSearchResultIndexHit` and the decode call that invoked it return a nil
error, the field being left without the id; the same happens for a map that
cannot hold a string value. -/
theorem inject_id_failure_swallowed :
    parseSearchResultIndexHit sampleCodec "7" "a"
        (.ptr (some (.struct [(⟨"ID", "_id", true⟩, .other (.num 0)),
          (⟨"Title", "title", true⟩, .str "")])))
      = ⟨.ptr (some (.struct [(⟨"ID", "_id", true⟩, .other (.num 0)),
            (⟨"Title", "title", true⟩, .str "a")])), none, true⟩
      ∧ es.parseSearchRespResult sampleCodec ES ⟨[⟨"7", "a"⟩], 1, ""⟩
          (.ptr (some (.struct [(⟨"ID", "_id", true⟩, .other (.num 0)),
            (⟨"Title", "title", true⟩, .str "")])))
        = ⟨.ptr (some (.struct [(⟨"ID", "_id", true⟩, .other (.num 0)),
              (⟨"Title", "title", true⟩, .str "a")])), 1, none⟩
      ∧ injectId "7" (.ptr (some (.map false (some [("n", .other (.num 1))]))))
        = ⟨.ptr (some (.map false (some [("n", .other (.num 1))]))), none, true⟩ := by
  refine ⟨rfl, rfl, rfl⟩

/-! ## The body of `Count` -/

theorem encodeAggs_keys (aggs : GoMap agg) (encoded : GoMap Json)
    (h : encodeAggs aggs = .ok encoded) : GoMap.keys encoded = GoMap.keys aggs := by
  induction aggs generalizing encoded with
  | nil =>
    simp only [encodeAggs, Except.ok.injEq] at h
    subst h
    rfl
  | cons kv rest ih =>
    obtain ⟨name, node⟩ := kv
    rw [encodeAggs] at h
    cases hn : node.MarshalJSON with
    | error f => simp [hn] at h
    | ok j =>
      cases hr : encodeAggs rest with
      | error f => simp [hn, hr] at h
      | ok others =>
        simp only [hn, hr, Except.ok.injEq] at h
        rw [← h]
        simp [GoMap.keys] at ih ⊢
        exact ih others hr

/-- C20, the claim fails: for a query with a registered aggregation the body that
`Count` sends holds that aggregation under `aggs`; it is not the body of the
query with an empty aggregation mapping. -/
theorem count_body_keeps_aggregations :
    (es.Count sampleCountClient sampleAggQuery).requests.map (fun r => r.body)
        = [Json.obj [
            ("query", Json.obj [("bool", Json.obj [("must", Json.arr []),
              ("must_not", Json.arr []), ("should", Json.arr []),
              ("adjust_pure_negative", Json.bool false)])]),
            ("aggs", Json.obj [("author", Json.obj [("terms",
              Json.obj [("field", Json.str "author"), ("size", Json.num 10)])])])]]
      ∧ (es.Count sampleCountClient sampleAggQuery).requests.map (fun r => r.body)
        ≠ (es.Count sampleCountClient { sampleAggQuery with agg := [] }).requests.map
            (fun r => r.body) := by
  refine ⟨rfl, ?_⟩
  intro h
  have h1 : (es.Count sampleCountClient sampleAggQuery).requests.map (fun r => r.body)
      = [Json.obj [
            ("query", Json.obj [("bool", Json.obj [("must", Json.arr []),
              ("must_not", Json.arr []), ("should", Json.arr []),
              ("adjust_pure_negative", Json.bool false)])]),
            ("aggs", Json.obj [("author", Json.obj [("terms",
              Json.obj [("field", Json.str "author"), ("size", Json.num 10)])])])]] := rfl
  have h2 : (es.Count sampleCountClient { sampleAggQuery with agg := [] }).requests.map
      (fun r => r.body)
      = [Json.obj [
            ("query", Json.obj [("bool", Json.obj [("must", Json.arr []),
              ("must_not", Json.arr []), ("should", Json.arr []),
              ("adjust_pure_negative", Json.bool false)])]),
            ("aggs", Json.obj [])]] := rfl
  rw [h1, h2] at h
  simp at h

/-- C20, amended: the body that `Count` sends is the body built for the query as
it is, its aggregation mapping included: one entry under `aggs` for each
registered aggregation; setting `size` to 0 does not change the body, and the
request goes to the index of the query. -/
theorem count_sends_query_body {ρ : Type} (K : CountClient ρ) (q : es) :
    ({ q with size := 0 } : es).buildQuery = q.buildQuery
      ∧ (∀ body, q.buildQuery = .ok body → (es.Count K q).requests = [⟨q.indexName, body⟩])
      ∧ (∀ fault, q.buildQuery = .error fault → es.Count K q = ⟨[], .error fault⟩)
      ∧ (∀ body, q.buildQuery = .ok body →
          ∃ aggs, encodeAggs q.agg = .ok aggs ∧ GoMap.keys aggs = GoMap.keys q.agg
            ∧ body = Json.obj [
                ("query", Json.obj [("bool", Json.obj [
                  ("must", Json.arr q.cond.must),
                  ("must_not", Json.arr q.cond.not),
                  ("should", Json.arr q.cond.should),
                  ("adjust_pure_negative", Json.bool q.adjustPureNegative)])]),
                ("aggs", Json.obj aggs)]) := by
  have hsize : ({ q with size := 0 } : es).buildQuery = q.buildQuery := rfl
  refine ⟨hsize, ?_, ?_, ?_⟩
  · intro body hb
    have hb' : ({ q with size := 0 } : es).buildQuery = .ok body := hsize.trans hb
    simp only [es.Count, hb']
    cases hc : K.Count ⟨q.indexName, body⟩ with
    | error err => rfl
    | ok res =>
      simp only
      split_ifs <;> rfl
  · intro fault hb
    have hb' : ({ q with size := 0 } : es).buildQuery = .error fault := hsize.trans hb
    simp only [es.Count, hb']
  · intro body hb
    unfold es.buildQuery at hb
    split_ifs at hb
    cases ha : encodeAggs q.agg with
    | error f =>
      rw [ha] at hb
      cases f <;> simp at hb
    | ok aggs =>
      rw [ha] at hb
      simp only [Except.ok.injEq] at hb
      exact ⟨aggs, rfl, encodeAggs_keys _ _ ha, hb.symm⟩

/-- C20 amended, at the sample query with one aggregation. -/
theorem count_sends_query_body_witness :
    ∃ body, sampleAggQuery.buildQuery = .ok body
      ∧ (es.Count sampleCountClient sampleAggQuery).requests = [⟨"books", body⟩] :=
  ⟨_, rfl, (count_sends_query_body sampleCountClient sampleAggQuery).2.1 _ rfl⟩


/-! ## `UpdateById` and `MUpdateById` -/

/-- The bulk calls of `UpdateById` and of `MUpdateById` on the same single
document carry the same body, timeout and refresh mode; the call of `UpdateById`
names the index of the query, the call of `MUpdateById` names no index. -/
theorem update_single_requests {α ρ : Type} (B : Backend α ρ) (e : es) (id : String)
    (data : α) (text : String) (henc : B.jsonEncode data = .ok text)
    (hlimit : 0 < B.limits.MaxBulkUpdateItemsLimit) :
    (e.UpdateById B id data).calls
        = [{ body := updateAction id ++ "\n" ++ ("\x7b\"doc\":" ++ text ++ "\x7d" ++ "\n"),
             index := some e.indexName, refresh := some "true", timeout := some 5 }]
      ∧ (e.MUpdateById B [NewDoc id data]).calls
        = [{ body := updateAction id ++ "\n" ++ ("\x7b\"doc\":" ++ text ++ "\x7d" ++ "\n"),
             index := none, refresh := some "true", timeout := some 5 }] := by
  have h1 : ¬ [NewDoc id data].length > B.limits.MaxBulkUpdateItemsLimit := by
    simp only [List.length_singleton]
    omega
  have h2 : ∀ d ∈ [NewDoc id data], B.jsonEncode d.data = .ok ((fun _ => text) d.data) := by
    intro d hd
    rw [List.mem_singleton.1 hd]
    exact henc
  refine ⟨?_, ?_⟩
  · simp only [es.UpdateById, encodePayload, henc, bulkCall_calls]
  · simp only [es.MUpdateById, if_neg h1,
      mUpdateItems_ok _ (fun _ => text) [NewDoc id data] "" h2, String.empty_append,
      bulkCall_calls]
    simp [concatTexts, updateLines, NewDoc]

/-- C21, evaluated at the query on the index `books`, the id `7` and a payload
that encodes to `1`: `UpdateById` and `MUpdateById` send the same body with the
same timeout and refresh mode, but the bulk call of `UpdateById` names the index
`books` and the bulk call of `MUpdateById` names no index, so the two requests
differ. -/
theorem update_by_id_requests_differ :
    (es.UpdateById sampleBackend (ES.IndexName "books") "7" "1").calls
        = [{ body := "\x7b\"update\": \x7b\"_id\": \"7\"\x7d\x7d\n\x7b\"doc\":1\x7d\n",
             index := some "books", refresh := some "true", timeout := some 5 }]
      ∧ (es.MUpdateById sampleBackend (ES.IndexName "books") [NewDoc "7" "1"]).calls
        = [{ body := "\x7b\"update\": \x7b\"_id\": \"7\"\x7d\x7d\n\x7b\"doc\":1\x7d\n",
             index := none, refresh := some "true", timeout := some 5 }]
      ∧ (es.UpdateById sampleBackend (ES.IndexName "books") "7" "1").calls
        ≠ (es.MUpdateById sampleBackend (ES.IndexName "books") [NewDoc "7" "1"]).calls := by
  decide

/-! ## Sequence decoding on failure -/

theorem arrayLoop_error {ρ : Type} (C : Codec ρ) (zero : Value)
    (pre post : List SearchResultHitResult) (hit : SearchResultHitResult)
    (slice : List Value) (err : DecodeError)
    (hpre : ∀ h ∈ pre, (parseSearchResultIndexHit C h.Id h.Source (.ptr (some zero))).err = none)
    (hhit : (parseSearchResultIndexHit C hit.Id hit.Source (.ptr (some zero))).err = some err) :
    arrayLoop C zero (pre ++ hit :: post) slice = .error err := by
  induction pre generalizing slice with
  | nil =>
    rw [List.nil_append, arrayLoop]
    simp only [hhit]
  | cons h rest ih =>
    rw [List.cons_append, arrayLoop]
    simp only [hpre h (List.mem_cons_self _ _)]
    exact ih _ (fun x hx => hpre x (List.mem_cons_of_mem _ hx))

theorem parseSearchResultIndexHit_unmarshal_error {ρ : Type} (C : Codec ρ)
    (esID dataRaw : String) (target : Value) (msg : String)
    (h : (C.unmarshal dataRaw target).2 = some msg) :
    (parseSearchResultIndexHit C esID dataRaw (.ptr (some target))).err
      = some (.unmarshal msg) := by
  have hd : decodeInto C dataRaw (.ptr (some target))
      = (.ptr (some (C.unmarshal dataRaw target).1), some (.unmarshal msg)) := by
    show (Value.ptr (some (C.unmarshal dataRaw target).1),
      (C.unmarshal dataRaw target).2.map DecodeError.unmarshal) = _
    rw [h]
    rfl
  unfold parseSearchResultIndexHit
  rw [hd]

/-- C22: for a query that is not an aggregation and a pointer to a slice, when
the hits before some hit decode without an error and that hit does not (its
source fails to decode, or the call on it returns another error), the decode
call returns the total 0 with the error of that hit and the destination slice is
exactly as it was before the call; and whenever the call returns an error for a
slice destination, the total is 0 and the slice is unchanged. -/
theorem decode_slice_atomic {ρ : Type} (C : Codec ρ) (e : es) (res : ρ)
    (resp : SearchResult) (zero : Value) (old : List Value)
    (hq : e.isAgg = false) (hresp : C.parseSearchRespDefaultDecode res = .ok resp) :
    (∀ (pre post : List SearchResultHitResult) (hit : SearchResultHitResult)
        (err : DecodeError),
        resp.IndexHits = pre ++ hit :: post →
        (∀ h ∈ pre,
          (parseSearchResultIndexHit C h.Id h.Source (.ptr (some zero))).err = none) →
        (parseSearchResultIndexHit C hit.Id hit.Source (.ptr (some zero))).err = some err →
        e.parseSearchRespResult C res (.ptr (some (.slice zero old)))
          = ⟨.ptr (some (.slice zero old)), 0, some err⟩)
      ∧ (∀ (pre post : List SearchResultHitResult) (hit : SearchResultHitResult)
          (msg : String),
          resp.IndexHits = pre ++ hit :: post →
          (∀ h ∈ pre,
            (parseSearchResultIndexHit C h.Id h.Source (.ptr (some zero))).err = none) →
          (C.unmarshal hit.Source zero).2 = some msg →
          e.parseSearchRespResult C res (.ptr (some (.slice zero old)))
            = ⟨.ptr (some (.slice zero old)), 0, some (.unmarshal msg)⟩)
      ∧ ((e.parseSearchRespResult C res (.ptr (some (.slice zero old)))).err ≠ none →
          (e.parseSearchRespResult C res (.ptr (some (.slice zero old)))).results
              = .ptr (some (.slice zero old))
            ∧ (e.parseSearchRespResult C res (.ptr (some (.slice zero old)))).total = 0) := by
  have hfail : ∀ (pre post : List SearchResultHitResult) (hit : SearchResultHitResult)
      (err : DecodeError),
      resp.IndexHits = pre ++ hit :: post →
      (∀ h ∈ pre,
        (parseSearchResultIndexHit C h.Id h.Source (.ptr (some zero))).err = none) →
      (parseSearchResultIndexHit C hit.Id hit.Source (.ptr (some zero))).err = some err →
      e.parseSearchRespResult C res (.ptr (some (.slice zero old)))
        = ⟨.ptr (some (.slice zero old)), 0, some err⟩ := by
    intro pre post hit err hsplit hpre hhit
    simp only [es.parseSearchRespResult, hresp, hq, elemKind, Value.kind,
      parseSearchRespResultArray, hsplit, arrayLoop_error C zero pre post hit [] err hpre hhit]
    rfl
  refine ⟨hfail, ?_, ?_⟩
  · intro pre post hit msg hsplit hpre hmsg
    exact hfail pre post hit _ hsplit hpre
      (parseSearchResultIndexHit_unmarshal_error C _ _ _ _ hmsg)
  · intro herr
    simp only [es.parseSearchRespResult, hresp, hq, elemKind, Value.kind,
      parseSearchRespResultArray] at herr ⊢
    cases hloop : arrayLoop C zero resp.IndexHits [] with
    | error err => simp
    | ok slice =>
      rw [hloop] at herr
      simp at herr

/-- C22, at three hits of which the second has an empty source: the call returns
the total 0 with the decoding error and the slice still holds its one old
element, although the first hit decoded. -/
theorem decode_slice_atomic_witness :
    es.parseSearchRespResult strictCodec ES ⟨[⟨"1", "a"⟩, ⟨"2", ""⟩, ⟨"3", "c"⟩], 3, ""⟩
        (.ptr (some (.slice (.map true none) [.map true (some [("title", .str "old")])])))
      = ⟨.ptr (some (.slice (.map true none) [.map true (some [("title", .str "old")])])),
          0, some (.unmarshal "unexpected end of JSON input")⟩ :=
  (decode_slice_atomic strictCodec ES ⟨[⟨"1", "a"⟩, ⟨"2", ""⟩, ⟨"3", "c"⟩], 3, ""⟩
    ⟨[⟨"1", "a"⟩, ⟨"2", ""⟩, ⟨"3", "c"⟩], 3, ""⟩ (.map true none)
    [.map true (some [("title", .str "old")])] rfl rfl).2.1
    [⟨"1", "a"⟩] [⟨"3", "c"⟩] ⟨"2", ""⟩ "unexpected end of JSON input" rfl
    (by
      intro h hm
      rw [List.mem_singleton.1 hm]
      rfl)
    rfl

end Ges
